import Mathlib

/-!
# Verification of the vx benchmark analysis engine

A shallow embedding, in Lean 4, of the benchmark analysis core of the vx
repository: the CI threshold checker of `scripts/check-benchmark.py` and the
aggregation / baseline-comparison engine of `benchmarks/manage.py`.

Modelling conventions:
* Python dicts are insertion-ordered association lists `List (String × β)`;
  a fresh key is appended at the end, as CPython dicts do.
* JSON numbers (Python floats) are exact rationals `ℚ`.  Python's
  `statistics.mean`, `median` and `stdev` compute with exact `Fraction`
  arithmetic internally, so this is faithful for the derived statistics.
* Fallible loading is `Option`: `none` is a missing or unparsable artifact.
* `statistics.stdev` returns a square root, which is not rational; the
  embedding tracks the radicand (the sample variance), which is zero exactly
  when the standard deviation is zero.
-/

namespace Vx

/-! ## String ordering

Python compares strings (and sorts file names) lexicographically by Unicode
code point.  Lean's built-in `String` order does not reduce in the kernel, so
we define the same code-point lexicographic order on the character list. -/

/-- Lexicographic strict order on character lists, by code point, as Python
compares strings. -/
def strLtAux : List Char → List Char → Bool
  | [], [] => false
  | [], _ :: _ => true
  | _ :: _, [] => false
  | a :: as, b :: bs => if a < b then true else if b < a then false else strLtAux as bs

/-- Python's `s < t` on strings: code-point lexicographic order. -/
def strLt (s t : String) : Bool := strLtAux s.data t.data

/-- Association-list lookup, modelling `d[k]` / `k in d` on a Python dict. -/
def lookupKey {β : Type} (k : String) : List (String × β) → Option β
  | [] => none
  | (k', v) :: rest => if k' = k then some v else lookupKey k rest

/-! ## Timing records -/

/-- A raw timing record as read from a results JSON file.  Every field is
optional, mirroring `result.get(key, default)` with the default applied at
each use site. -/
structure RawRecord where
  operation : Option String
  tool : Option String
  duration_ms : Option ℚ
  success : Option Bool
  timestamp : Option String
deriving Repr, DecidableEq

/-- `result.get('operation', 'unknown')`. -/
def RawRecord.getOperation (r : RawRecord) : String := r.operation.getD "unknown"

/-- `result.get('tool', 'unknown')`. -/
def RawRecord.getTool (r : RawRecord) : String := r.tool.getD "unknown"

/-- `result.get('duration_ms', 0)`. -/
def RawRecord.getDuration (r : RawRecord) : ℚ := r.duration_ms.getD 0

/-- `result.get('success', False)`. -/
def RawRecord.getSuccess (r : RawRecord) : Bool := r.success.getD false

/-! ## The threshold checker (`scripts/check-benchmark.py`) -/

/-- One entry of the threshold baseline: `max_duration_ms` and
`percentile_95_ms`, each read with default `float('inf')`. -/
structure ThresholdEntry where
  max_duration_ms : Option ℚ
  percentile_95_ms : Option ℚ
deriving Repr, DecidableEq

/-- The parsed threshold-baseline artifact: its `baselines` dict, keyed by
`"<operation>_<tool>"`. -/
structure ThresholdBaselineData where
  baselines : List (String × ThresholdEntry)
deriving Repr, DecidableEq

/-- Classification of one record by the threshold checker. -/
inductive CheckClass where
  | passed
  | failed
  | warning
deriving Repr, DecidableEq

/-- `duration_ms > baseline_op.get(bound_key, float('inf'))`: a missing bound
is `+∞`, and nothing is greater than `+∞`. -/
def gtBound (d : ℚ) : Option ℚ → Bool
  | none => false
  | some b => decide (b < d)

/-- The key `f"{operation}_{tool}"` of a record. -/
def recordKey (r : RawRecord) : String := r.getOperation ++ "_" ++ r.getTool

/-- The per-record branch of `check_benchmark_performance`'s loop:
an unsuccessful record is failed; with a baseline entry, strictly above the
max duration is failed, strictly above the 95th percentile is a warning,
otherwise passed; without an entry, a warning ("no baseline"). -/
def classifyRecord (baseline : List (String × ThresholdEntry)) (r : RawRecord) : CheckClass :=
  if r.getSuccess = false then CheckClass.failed
  else
    match lookupKey (recordKey r) baseline with
    | some e =>
      if gtBound r.getDuration e.max_duration_ms then CheckClass.failed
      else if gtBound r.getDuration e.percentile_95_ms then CheckClass.warning
      else CheckClass.passed
    | none => CheckClass.warning

/-- One iteration of the counting loop: bump the (failed, warning, passed)
counters according to the record's class. -/
def countStep (baseline : List (String × ThresholdEntry)) (acc : ℕ × ℕ × ℕ)
    (r : RawRecord) : ℕ × ℕ × ℕ :=
  match classifyRecord baseline r with
  | CheckClass.failed => (acc.1 + 1, acc.2.1, acc.2.2)
  | CheckClass.warning => (acc.1, acc.2.1 + 1, acc.2.2)
  | CheckClass.passed => (acc.1, acc.2.1, acc.2.2 + 1)

/-- The loop of `check_benchmark_performance`: the final
(failed_tests, warning_tests, passed_tests) counters. -/
def countClasses (baseline : List (String × ThresholdEntry)) (rs : List RawRecord) : ℕ × ℕ × ℕ :=
  rs.foldl (countStep baseline) (0, 0, 0)

/-- `check_benchmark_performance(results_file, baseline_file)`.
`results` is the loaded results JSON (`none` = missing or unparsable file);
`baseline_data` likewise for the baseline file.  `if not results: return
False`; `if not baseline_data: return True`; then the result is `False`
exactly when `failed_tests > 0`. -/
def check_benchmark_performance (results : Option (List RawRecord))
    (baseline_data : Option ThresholdBaselineData) : Bool :=
  match results with
  | none => false
  | some rs =>
    if rs = [] then false
    else
      match baseline_data with
      | none => true
      | some bd => decide ((countClasses bd.baselines rs).1 = 0)

/-- A file in a results directory: its name, its modification time and its
parsed content (`none` = unreadable or unparsable). -/
structure ResultFile where
  name : String
  mtime : ℕ
  records : Option (List RawRecord)
deriving Repr, DecidableEq

/-- Whether a file name matches the glob `benchmark_results_*.json`. -/
def benchPat (name : String) : Bool :=
  let cs := name.data
  let pre := ("benchmark_results_").data
  let suf := (".json").data
  decide (cs.take pre.length = pre) && decide (pre.length + suf.length ≤ cs.length) &&
    decide (cs.drop (cs.length - suf.length) = suf)

/-- `find_latest_benchmark_file(results_dir)`: `none` when the directory does
not exist or holds no matching file; otherwise `max(files, key=mtime)`, which
keeps the first file on ties. -/
def find_latest_benchmark_file (results_dir : Option (List ResultFile)) : Option ResultFile :=
  match results_dir with
  | none => none
  | some files =>
    match files.filter (fun f => benchPat f.name) with
    | [] => none
    | f :: rest => some (rest.foldl (fun best g => if best.mtime < g.mtime then g else best) f)

/-- `main()` of `check-benchmark.py`, as the predicate "the process exits with
a non-zero code": with an explicit argument the named file is checked; without
one the latest file by modification time is used, and finding none exits 1. -/
def main_exit_nonzero (argv1 : Option ResultFile) (results_dir : Option (List ResultFile))
    (baseline_data : Option ThresholdBaselineData) : Bool :=
  match argv1 with
  | some f => !(check_benchmark_performance f.records baseline_data)
  | none =>
    match find_latest_benchmark_file results_dir with
    | none => true
    | some f => !(check_benchmark_performance f.records baseline_data)

/-! ## The aggregator (`benchmarks/manage.py`, `generate_summary`) -/

/-- Update the value at `k` in an insertion-ordered dict: apply `f` to the
stored value, inserting `f d` when the key is fresh (CPython appends fresh
keys at the end). -/
def updateAList {β : Type} (k : String) (d : β) (f : β → β) :
    List (String × β) → List (String × β)
  | [] => [(k, f d)]
  | (k', v) :: rest => if k' = k then (k', f v) :: rest else (k', v) :: updateAList k d f rest

/-- The accumulating per-operation group of `summary["operations"][op]`
before statistics are computed. -/
structure OpStats where
  count : ℕ
  success_count : ℕ
  total_duration : ℚ
  durations : List ℚ
deriving Repr, DecidableEq

/-- The freshly inserted group `{"count": 0, ...}`. -/
def emptyOpStats : OpStats := { count := 0, success_count := 0, total_duration := 0, durations := [] }

/-- Fold one record into its operation group: bump the count, add the
duration to the running total, append it to the duration list, and count the
success. -/
def opStatsAdd (s : OpStats) (r : RawRecord) : OpStats :=
  { count := s.count + 1
    success_count := s.success_count + (if r.getSuccess then 1 else 0)
    total_duration := s.total_duration + r.getDuration
    durations := s.durations ++ [r.getDuration] }

/-- One iteration of the grouping loop over `summary["operations"]`. -/
def groupStep (ops : List (String × OpStats)) (r : RawRecord) : List (String × OpStats) :=
  updateAList r.getOperation emptyOpStats (fun s => opStatsAdd s r) ops

/-- The per-operation grouping pass of `generate_summary`. -/
def groupOps (results : List RawRecord) : List (String × OpStats) :=
  results.foldl groupStep []

/-- The nested per-operation counters inside `summary["tools"][tool]`. -/
structure ToolOpStats where
  count : ℕ
  duration : ℚ
  success : ℕ
deriving Repr, DecidableEq

/-- The accumulating per-tool group of `summary["tools"][tool]`. -/
structure ToolStats where
  operations : List (String × ToolOpStats)
  total_duration : ℚ
  success_count : ℕ
  total_count : ℕ
deriving Repr, DecidableEq

/-- The freshly inserted tool group. -/
def emptyToolStats : ToolStats :=
  { operations := [], total_duration := 0, success_count := 0, total_count := 0 }

/-- Fold one record into its tool group: the nested per-operation counters,
then the tool-wide totals. -/
def toolStatsAdd (t : ToolStats) (r : RawRecord) : ToolStats :=
  { operations := updateAList r.getOperation
      { count := 0, duration := 0, success := 0 }
      (fun o => { count := o.count + 1
                  duration := o.duration + r.getDuration
                  success := o.success + (if r.getSuccess then 1 else 0) })
      t.operations
    total_duration := t.total_duration + r.getDuration
    success_count := t.success_count + (if r.getSuccess then 1 else 0)
    total_count := t.total_count + 1 }

/-- One iteration of `generate_summary`'s single grouping loop, updating the
operations dict and the tools dict together. -/
def recordStep (acc : List (String × OpStats) × List (String × ToolStats))
    (r : RawRecord) : List (String × OpStats) × List (String × ToolStats) :=
  (groupStep acc.1 r, updateAList r.getTool emptyToolStats (fun t => toolStatsAdd t r) acc.2)

/-- `statistics.mean`: the exact arithmetic mean. -/
def meanQ (xs : List ℚ) : ℚ := xs.sum / xs.length

/-- Ascending sort of the durations, as `statistics.median` sorts its data. -/
def sortQ (xs : List ℚ) : List ℚ := List.insertionSort (· ≤ ·) xs

/-- `statistics.median`: middle element of the sorted data, or the mean of
the two middle elements when the length is even. -/
def medianQ (xs : List ℚ) : ℚ :=
  let s := sortQ xs
  let n := s.length
  if n % 2 = 1 then s.getD (n / 2) 0
  else (s.getD (n / 2 - 1) 0 + s.getD (n / 2) 0) / 2

/-- Python's `min` over a non-empty list (0 for the empty list, which the
source never reaches). -/
def minQ : List ℚ → ℚ
  | [] => 0
  | x :: rest => rest.foldl min x

/-- Python's `max` over a non-empty list (0 for the empty list, which the
source never reaches). -/
def maxQ : List ℚ → ℚ
  | [] => 0
  | x :: rest => rest.foldl max x

/-- The square of `statistics.stdev`: the sample variance, summing the
squared deviations from the mean and dividing by `n - 1`. -/
def sampleVarQ (xs : List ℚ) : ℚ :=
  ((xs.map (fun x => (x - meanQ xs) ^ 2)).sum) / ((xs.length : ℚ) - 1)

/-- A finished per-operation summary: the accumulated counters plus the
derived statistics, with the raw duration list deleted
(`del data["durations"]`).  `std_duration_sq` is the square of the source's
`std_duration` (see the file header); the source computes the statistics only
when the duration list is non-empty, which always holds for a group the loop
created, so the `[]` branches below are unreachable defaults. -/
structure OpSummary where
  count : ℕ
  success_count : ℕ
  total_duration : ℚ
  avg_duration : ℚ
  median_duration : ℚ
  min_duration : ℚ
  max_duration : ℚ
  std_duration_sq : ℚ
  success_rate : ℚ
deriving Repr, DecidableEq

/-- The statistics pass of `generate_summary` on one operation group:
mean, median, min, max, sample standard deviation (0 when the group has one
record) and the success rate (0 when the count is 0). -/
def finalizeOp (s : OpStats) : OpSummary :=
  { count := s.count
    success_count := s.success_count
    total_duration := s.total_duration
    avg_duration := if s.durations = [] then 0 else meanQ s.durations
    median_duration := if s.durations = [] then 0 else medianQ s.durations
    min_duration := if s.durations = [] then 0 else minQ s.durations
    max_duration := if s.durations = [] then 0 else maxQ s.durations
    std_duration_sq := if s.durations = [] then 0
      else if 1 < s.durations.length then sampleVarQ s.durations else 0
    success_rate := if 0 < s.count then (s.success_count : ℚ) / (s.count : ℚ) else 0 }

/-- The aggregation result of one run (`summary` in `generate_summary`). -/
structure RunSummary where
  file : String
  timestamp : Option String
  total_operations : ℕ
  operations : List (String × OpSummary)
  tools : List (String × ToolStats)
deriving Repr, DecidableEq

/-- Build the summary of a non-empty record list loaded from `fileName`:
one grouping pass, then the statistics pass over the operation groups. -/
def buildSummary (fileName : String) (results : List RawRecord) : RunSummary :=
  let st := results.foldl recordStep ([], [])
  { file := fileName
    timestamp := results.head?.bind (fun r => r.timestamp)
    total_operations := results.length
    operations := st.1.map (fun p => (p.1, finalizeOp p.2))
    tools := st.2 }

/-! ## File discovery (`list_results`, `load_result`, `generate_summary`) -/

/-- Insert a file into a list sorted ascending by name (code-point order). -/
def insByName (f : ResultFile) : List ResultFile → List ResultFile
  | [] => [f]
  | g :: gs => if strLt f.name g.name then f :: g :: gs else g :: insByName f gs

/-- Ascending insertion sort by file name, modelling Python's `sorted` over
the globbed paths. -/
def sortByName : List ResultFile → List ResultFile
  | [] => []
  | f :: fs => insByName f (sortByName fs)

/-- `list_results`: the files matching `benchmark_results_*.json`, sorted
ascending by name. -/
def list_results (fs : List ResultFile) : List ResultFile :=
  sortByName (fs.filter (fun f => benchPat f.name))

/-- Resolve a path in the modelled directory. -/
def findFile : List ResultFile → String → Option ResultFile
  | [], _ => none
  | f :: rest, p => if f.name = p then some f else findFile rest p

/-- `load_result`: the parsed record list of the file at `p`, with any read
or parse failure caught and turned into `[]`. -/
def load_result (fs : List ResultFile) (p : String) : List RawRecord :=
  match findFile fs p with
  | none => []
  | some f => f.records.getD []

/-- `generate_summary(result_file)`: with an explicit file, use it; otherwise
take the last of `list_results` (the lexicographically latest name).  No
candidate file, or no data in the chosen file, is an error value. -/
def generate_summary (fs : List ResultFile) (result_file : Option String) :
    Except String RunSummary :=
  let files : List String := match result_file with
    | some p => [p]
    | none => (list_results fs).map ResultFile.name
  match files.getLast? with
  | none => Except.error "No benchmark results found"
  | some latest_file =>
    let results := load_result fs latest_file
    if results = [] then Except.error ("No data in " ++ latest_file)
    else Except.ok (buildSummary latest_file results)

/-! ## The comparator (`compare_with_baseline`) and the baseline store -/

/-- The persisted baseline artifact (`baseline.json`): provenance plus the
operation and tool summaries of the run it was set from. -/
structure BaselineData where
  created_at : String
  source_file : String
  operations : List (String × OpSummary)
  tools : List (String × ToolStats)
deriving Repr, DecidableEq

/-- One classified delta (`change_data` in `compare_with_baseline`). -/
structure ChangeData where
  operation : String
  baseline_avg : ℚ
  current_avg : ℚ
  change_percent : ℚ
  change_ms : ℚ
deriving Repr, DecidableEq

/-- The comparison result: the four classified lists plus the two file
identifiers set before the loop. -/
structure ComparisonResult where
  baseline_file : String
  current_file : String
  improvements : List ChangeData
  regressions : List ChangeData
  new_operations : List String
  missing_operations : List String
deriving Repr, DecidableEq

/-- The comparison dict as initialized before the loop, with all four lists
empty. -/
def initComparison (baseline_file current_file : String) : ComparisonResult :=
  { baseline_file := baseline_file, current_file := current_file,
    improvements := [], regressions := [], new_operations := [], missing_operations := [] }

/-- One enumeration of the key set `set(baseline_ops) | set(current_ops)`:
the distinct keys in first-insertion order.  CPython iterates a set union in
an order that depends on the hash seed and on the keys' insertion history —
which, through the current summary's dict, follows the record order — and
not on the set's contents alone: permuting the records can permute the
iteration (observable for colliding keys).  The embedding models one such
insertion-dependent order, so the dependence of the output lists' order on
the record sequence stays observable. -/
def dedupFirst : List String → List String
  | [] => []
  | k :: ks => k :: (dedupFirst ks).filter (fun x => decide (x ≠ k))

/-- The body of `compare_with_baseline`'s loop for one operation name:
absent from the baseline → `new_operations`; absent from the current summary
→ `missing_operations`; present in both and the baseline average is positive
→ compute the percent change and classify below −5 as an improvement, above
5 as a regression, anything else (and a non-positive baseline average) is
dropped. -/
def compareStep (baseline_ops current_ops : List (String × OpSummary))
    (acc : ComparisonResult) (op_type : String) : ComparisonResult :=
  match lookupKey op_type baseline_ops with
  | none => { acc with new_operations := acc.new_operations ++ [op_type] }
  | some bop =>
    match lookupKey op_type current_ops with
    | none => { acc with missing_operations := acc.missing_operations ++ [op_type] }
    | some cop =>
      let baseline_avg := bop.avg_duration
      let current_avg := cop.avg_duration
      if 0 < baseline_avg then
        let change_percent := (current_avg - baseline_avg) / baseline_avg * 100
        let change_data : ChangeData :=
          { operation := op_type, baseline_avg := baseline_avg, current_avg := current_avg,
            change_percent := change_percent, change_ms := current_avg - baseline_avg }
        if change_percent < -5 then
          { acc with improvements := acc.improvements ++ [change_data] }
        else if 5 < change_percent then
          { acc with regressions := acc.regressions ++ [change_data] }
        else acc
      else acc

/-- The loop of `compare_with_baseline` over the union of the operation-name
sets of the baseline and the current summary. -/
def compare_ops_loop (baseline_ops current_ops : List (String × OpSummary))
    (acc : ComparisonResult) : ComparisonResult :=
  (dedupFirst (baseline_ops.map Prod.fst ++ current_ops.map Prod.fst)).foldl
    (compareStep baseline_ops current_ops) acc

/-- `compare_with_baseline(result_file)`: an error value without a baseline,
the propagated error when the summary fails, otherwise the classified
comparison. -/
def compare_with_baseline (baseline : Option BaselineData) (fs : List ResultFile)
    (result_file : Option String) : Except String ComparisonResult :=
  match baseline with
  | none => Except.error "No baseline found. Run 'set-baseline' first."
  | some b =>
    match generate_summary fs result_file with
    | Except.error e => Except.error e
    | Except.ok cur =>
      Except.ok (compare_ops_loop b.operations cur.operations
        (initComparison b.source_file cur.file))

/-- The baseline object `set_baseline` persists: creation time, source file
name, and the summary's operation and tool maps. -/
def mkBaselineData (now : String) (summary : RunSummary) : BaselineData :=
  { created_at := now, source_file := summary.file,
    operations := summary.operations, tools := summary.tools }

/-- The tail of `set_baseline` past the existence check: generate the
summary; on an error report failure and leave the store alone, otherwise
overwrite the store wholesale (`save_baseline`) and report success. -/
def set_baseline_gen (fs : List ResultFile) (result_file : Option String)
    (store : Option BaselineData) (now : String) : Bool × Option BaselineData :=
  match generate_summary fs result_file with
  | Except.error _ => (false, store)
  | Except.ok summary => (true, some (mkBaselineData now summary))

/-- `set_baseline(result_file)` as a transition on the persisted baseline
store: an explicitly named file that does not exist fails early, everything
else goes through summary generation. -/
def set_baseline (fs : List ResultFile) (result_file : Option String)
    (store : Option BaselineData) (now : String) : Bool × Option BaselineData :=
  match result_file with
  | some p =>
    if (findFile fs p).isSome = false then (false, store)
    else set_baseline_gen fs result_file store now
  | none => set_baseline_gen fs result_file store now

/-! ## Threshold-checker lemmas -/

/-- The first component of the counting loop is the number of records
classified failed. -/
theorem foldl_countStep_fst (b : List (String × ThresholdEntry)) :
    ∀ (rs : List RawRecord) (acc : ℕ × ℕ × ℕ),
      (rs.foldl (countStep b) acc).1 =
        acc.1 + rs.countP (fun r => classifyRecord b r == CheckClass.failed)
  | [], acc => by simp
  | r :: rs, acc => by
    rw [List.foldl_cons, foldl_countStep_fst b rs, List.countP_cons]
    cases h : classifyRecord b r <;> (simp [countStep, h]; try omega)

/-- The failed-test counter of `check_benchmark_performance`. -/
theorem countClasses_fst (b : List (String × ThresholdEntry)) (rs : List RawRecord) :
    (countClasses b rs).1 = rs.countP (fun r => classifyRecord b r == CheckClass.failed) := by
  rw [countClasses, foldl_countStep_fst]
  simp

/-- C1 (amended).  The threshold check passes (zero exit) exactly when the
loaded result input is a non-empty record list and either the threshold
baseline is absent or no record is classified failed.  In particular a
missing, malformed or empty result input yields a failing (non-zero exit)
result, not a passing one; only an absent threshold baseline degrades to a
pass. -/
theorem check_pass_characterization (results : Option (List RawRecord))
    (baseline_data : Option ThresholdBaselineData) :
    check_benchmark_performance results baseline_data = true ↔
      ∃ rs, results = some rs ∧ rs ≠ [] ∧
        (baseline_data = none ∨ ∃ bd, baseline_data = some bd ∧
          ∀ r ∈ rs, classifyRecord bd.baselines r ≠ CheckClass.failed) := by
  cases results with
  | none => simp [check_benchmark_performance]
  | some rs =>
    by_cases hrs : rs = []
    · subst hrs
      simp [check_benchmark_performance]
    · cases baseline_data with
      | none => simp [check_benchmark_performance, hrs]
      | some bd =>
        simp only [check_benchmark_performance, if_neg hrs, decide_eq_true_eq,
          countClasses_fst, List.countP_eq_zero]
        constructor
        · intro h
          exact ⟨rs, rfl, hrs, Or.inr ⟨bd, rfl, fun r hr => by simpa using h r hr⟩⟩
        · rintro ⟨rs', hrs', -, h | ⟨bd', hbd', h⟩⟩
          · exact absurd h (by simp)
          · cases hrs'
            cases hbd'
            intro r hr
            simpa using h r hr

/-- A concrete threshold baseline with no entries. -/
def cexBD : ThresholdBaselineData := { baselines := [] }

/-- A result file whose content cannot be loaded. -/
def cexMissingFile : ResultFile :=
  { name := "benchmark_results_x.json", mtime := 0, records := none }

/-- C1 counterexample.  A missing (or unparsable) result file produces a
failing check result and a non-zero process exit even though no record is
classified failed — contradicting the claim that such inputs yield a passing
outcome. -/
theorem check_missing_input_fails_cex :
    check_benchmark_performance none (some cexBD) = false ∧
    main_exit_nonzero (some cexMissingFile) none (some cexBD) = true :=
  ⟨rfl, rfl⟩

/-- C2.  A record whose success field reads false is classified failed,
whatever its duration and whether or not a baseline entry exists for its
key. -/
theorem classify_unsuccessful_failed (baseline : List (String × ThresholdEntry))
    (r : RawRecord) (h : r.getSuccess = false) :
    classifyRecord baseline r = CheckClass.failed := by
  simp [classifyRecord, h]

/-- A baseline holding an entry for the witness record's key, with both
thresholds far above its duration. -/
def wBl2 : List (String × ThresholdEntry) :=
  [("install_uv", { max_duration_ms := some 1000, percentile_95_ms := some 500 })]

/-- An unsuccessful record whose duration is below every threshold. -/
def wRec2 : RawRecord :=
  { operation := some "install", tool := some "uv", duration_ms := some 1,
    success := some false, timestamp := none }

/-- C2 witness: the unsuccessful record is failed although its duration is
below both thresholds of its baseline entry. -/
theorem classify_unsuccessful_failed_witness :
    classifyRecord wBl2 wRec2 = CheckClass.failed :=
  classify_unsuccessful_failed wBl2 wRec2 rfl

/-- C3.  For a successful record with a baseline entry both comparisons are
strict: a duration exactly equal to `max_duration_ms` is never classified
failed, and a duration exactly equal to `percentile_95_ms` is never
classified warning (when it is also not above the max bound, the record is
passed). -/
theorem classify_boundary_strict (baseline : List (String × ThresholdEntry))
    (r : RawRecord) (e : ThresholdEntry) (hs : r.getSuccess = true)
    (hl : lookupKey (recordKey r) baseline = some e) :
    (∀ m, e.max_duration_ms = some m → r.getDuration = m →
      classifyRecord baseline r ≠ CheckClass.failed) ∧
    (∀ p, e.percentile_95_ms = some p → r.getDuration = p →
      classifyRecord baseline r ≠ CheckClass.warning ∧
        (gtBound r.getDuration e.max_duration_ms = false →
          classifyRecord baseline r = CheckClass.passed)) := by
  constructor
  · intro m hm hd
    have hmax : gtBound r.getDuration e.max_duration_ms = false := by
      rw [hm, hd]
      simp [gtBound]
    cases hp : gtBound r.getDuration e.percentile_95_ms <;>
      simp [classifyRecord, hs, hl, hmax, hp]
  · intro p hp hd
    have h95 : gtBound r.getDuration e.percentile_95_ms = false := by
      rw [hp, hd]
      simp [gtBound]
    cases hm : gtBound r.getDuration e.max_duration_ms <;>
      simp [classifyRecord, hs, hl, h95, hm]

/-- The boundary witness entry: both thresholds at 50 ms. -/
def wE3 : ThresholdEntry := { max_duration_ms := some 50, percentile_95_ms := some 50 }

/-- A baseline holding the boundary witness entry. -/
def wBl3 : List (String × ThresholdEntry) := [("install_uv", wE3)]

/-- A successful record whose duration sits exactly on both thresholds. -/
def wR3 : RawRecord :=
  { operation := some "install", tool := some "uv", duration_ms := some 50,
    success := some true, timestamp := none }

/-- C3 witness: the record at exactly 50 ms against bounds of exactly 50 ms
is neither failed nor a warning — it is passed. -/
theorem classify_boundary_strict_witness :
    classifyRecord wBl3 wR3 ≠ CheckClass.failed ∧
    classifyRecord wBl3 wR3 = CheckClass.passed := by
  have h := classify_boundary_strict wBl3 wR3 wE3 rfl rfl
  refine ⟨h.1 50 rfl rfl, ((h.2 50 rfl rfl).2 ?_)⟩
  simp [gtBound, wE3, wR3, RawRecord.getDuration]

/-- C4 (amended).  For a non-empty record list the check fails exactly when
some record is classified failed (so warnings alone never fail it), and an
absent threshold baseline yields an automatic pass.  The restriction to
non-empty lists is forced: an empty record list fails the check outright. -/
theorem check_nonempty_fail_iff (rs : List RawRecord) (bd : ThresholdBaselineData)
    (h : rs ≠ []) :
    (check_benchmark_performance (some rs) (some bd) = false ↔
      ∃ r ∈ rs, classifyRecord bd.baselines r = CheckClass.failed) ∧
    check_benchmark_performance (some rs) none = true := by
  constructor
  · simp only [check_benchmark_performance, if_neg h, decide_eq_false_iff_not,
      countClasses_fst]
    rw [show (¬ (rs.countP (fun r => classifyRecord bd.baselines r == CheckClass.failed)) = 0) =
        (0 < rs.countP (fun r => classifyRecord bd.baselines r == CheckClass.failed)) by
      simp [Nat.pos_iff_ne_zero, Ne], List.countP_pos_iff]
    simp
  · simp [check_benchmark_performance, if_neg h]

/-- C4 counterexample.  For the empty record list the check fails although no
record is classified failed, refuting the claimed equivalence for every
record list. -/
theorem check_empty_results_cex :
    ¬ (check_benchmark_performance (some []) (some cexBD) = false ↔
        ∃ r ∈ ([] : List RawRecord), classifyRecord cexBD.baselines r = CheckClass.failed) := by
  intro hiff
  rcases hiff.mp rfl with ⟨r, hr, -⟩
  simp at hr

/-- A single unsuccessful record for the C4 witness. -/
def wRec4 : RawRecord :=
  { operation := some "build", tool := some "vx", duration_ms := some 3,
    success := some false, timestamp := none }

/-- C4 witness at the one-record list containing an unsuccessful record. -/
theorem check_nonempty_fail_iff_witness :
    (check_benchmark_performance (some [wRec4]) (some cexBD) = false ↔
      ∃ r ∈ [wRec4], classifyRecord cexBD.baselines r = CheckClass.failed) ∧
    check_benchmark_performance (some [wRec4]) none = true :=
  check_nonempty_fail_iff [wRec4] cexBD (by simp)

/-! ## Comparator lemmas -/

/-- What the loop appends to `improvements` at one operation name. -/
def improvementAt (baseline_ops current_ops : List (String × OpSummary))
    (k : String) : Option ChangeData :=
  match lookupKey k baseline_ops with
  | none => none
  | some bop =>
    match lookupKey k current_ops with
    | none => none
    | some cop =>
      if 0 < bop.avg_duration then
        if (cop.avg_duration - bop.avg_duration) / bop.avg_duration * 100 < -5 then
          some { operation := k, baseline_avg := bop.avg_duration,
                 current_avg := cop.avg_duration,
                 change_percent := (cop.avg_duration - bop.avg_duration) / bop.avg_duration * 100,
                 change_ms := cop.avg_duration - bop.avg_duration }
        else none
      else none

/-- What the loop appends to `regressions` at one operation name. -/
def regressionAt (baseline_ops current_ops : List (String × OpSummary))
    (k : String) : Option ChangeData :=
  match lookupKey k baseline_ops with
  | none => none
  | some bop =>
    match lookupKey k current_ops with
    | none => none
    | some cop =>
      if 0 < bop.avg_duration then
        if (cop.avg_duration - bop.avg_duration) / bop.avg_duration * 100 < -5 then none
        else if 5 < (cop.avg_duration - bop.avg_duration) / bop.avg_duration * 100 then
          some { operation := k, baseline_avg := bop.avg_duration,
                 current_avg := cop.avg_duration,
                 change_percent := (cop.avg_duration - bop.avg_duration) / bop.avg_duration * 100,
                 change_ms := cop.avg_duration - bop.avg_duration }
        else none
      else none

/-- What the loop appends to `new_operations` at one operation name. -/
def newOpAt (baseline_ops : List (String × OpSummary)) (k : String) : Option String :=
  match lookupKey k baseline_ops with
  | none => some k
  | some _ => none

/-- What the loop appends to `missing_operations` at one operation name. -/
def missingOpAt (baseline_ops current_ops : List (String × OpSummary))
    (k : String) : Option String :=
  match lookupKey k baseline_ops with
  | none => none
  | some _ =>
    match lookupKey k current_ops with
    | none => some k
    | some _ => none

theorem compareStep_improvements (b c : List (String × OpSummary))
    (acc : ComparisonResult) (k : String) :
    (compareStep b c acc k).improvements = acc.improvements ++ (improvementAt b c k).toList := by
  cases hb : lookupKey k b with
  | none => simp [compareStep, improvementAt, hb]
  | some bop =>
    cases hc : lookupKey k c with
    | none => simp [compareStep, improvementAt, hb, hc]
    | some cop =>
      simp only [compareStep, improvementAt, hb, hc]
      split_ifs <;> simp

theorem compareStep_regressions (b c : List (String × OpSummary))
    (acc : ComparisonResult) (k : String) :
    (compareStep b c acc k).regressions = acc.regressions ++ (regressionAt b c k).toList := by
  cases hb : lookupKey k b with
  | none => simp [compareStep, regressionAt, hb]
  | some bop =>
    cases hc : lookupKey k c with
    | none => simp [compareStep, regressionAt, hb, hc]
    | some cop =>
      simp only [compareStep, regressionAt, hb, hc]
      split_ifs <;> simp

theorem compareStep_new (b c : List (String × OpSummary))
    (acc : ComparisonResult) (k : String) :
    (compareStep b c acc k).new_operations = acc.new_operations ++ (newOpAt b k).toList := by
  cases hb : lookupKey k b with
  | none => simp [compareStep, newOpAt, hb]
  | some bop =>
    cases hc : lookupKey k c with
    | none => simp [compareStep, newOpAt, hb, hc]
    | some cop =>
      simp only [compareStep, newOpAt, hb, hc]
      split_ifs <;> simp

theorem compareStep_missing (b c : List (String × OpSummary))
    (acc : ComparisonResult) (k : String) :
    (compareStep b c acc k).missing_operations =
      acc.missing_operations ++ (missingOpAt b c k).toList := by
  cases hb : lookupKey k b with
  | none => simp [compareStep, missingOpAt, hb]
  | some bop =>
    cases hc : lookupKey k c with
    | none => simp [compareStep, missingOpAt, hb, hc]
    | some cop =>
      simp only [compareStep, missingOpAt, hb, hc]
      split_ifs <;> simp

theorem loop_improvements (b c : List (String × OpSummary)) :
    ∀ (keys : List String) (acc : ComparisonResult),
      ((keys.foldl (compareStep b c) acc).improvements) =
        acc.improvements ++ keys.filterMap (improvementAt b c)
  | [], acc => by simp
  | k :: ks, acc => by
    rw [List.foldl_cons, loop_improvements b c ks, compareStep_improvements,
      List.filterMap_cons, List.append_assoc]
    cases improvementAt b c k <;> simp

theorem loop_regressions (b c : List (String × OpSummary)) :
    ∀ (keys : List String) (acc : ComparisonResult),
      ((keys.foldl (compareStep b c) acc).regressions) =
        acc.regressions ++ keys.filterMap (regressionAt b c)
  | [], acc => by simp
  | k :: ks, acc => by
    rw [List.foldl_cons, loop_regressions b c ks, compareStep_regressions,
      List.filterMap_cons, List.append_assoc]
    cases regressionAt b c k <;> simp

theorem loop_new (b c : List (String × OpSummary)) :
    ∀ (keys : List String) (acc : ComparisonResult),
      ((keys.foldl (compareStep b c) acc).new_operations) =
        acc.new_operations ++ keys.filterMap (newOpAt b)
  | [], acc => by simp
  | k :: ks, acc => by
    rw [List.foldl_cons, loop_new b c ks, compareStep_new,
      List.filterMap_cons, List.append_assoc]
    cases newOpAt b k <;> simp

theorem loop_missing (b c : List (String × OpSummary)) :
    ∀ (keys : List String) (acc : ComparisonResult),
      ((keys.foldl (compareStep b c) acc).missing_operations) =
        acc.missing_operations ++ keys.filterMap (missingOpAt b c)
  | [], acc => by simp
  | k :: ks, acc => by
    rw [List.foldl_cons, loop_missing b c ks, compareStep_missing,
      List.filterMap_cons, List.append_assoc]
    cases missingOpAt b c k <;> simp

theorem mem_dedupFirst (a : String) : ∀ (l : List String), a ∈ dedupFirst l ↔ a ∈ l
  | [] => by simp [dedupFirst]
  | k :: ks => by
    simp only [dedupFirst, List.mem_cons, List.mem_filter, mem_dedupFirst a ks,
      decide_eq_true_eq]
    by_cases hak : a = k
    · simp [hak]
    · simp [hak]

theorem dedupFirst_nodup : ∀ (l : List String), (dedupFirst l).Nodup
  | [] => List.nodup_nil
  | k :: ks => by
    rw [dedupFirst]
    refine List.nodup_cons.mpr ⟨?_, List.Nodup.filter _ (dedupFirst_nodup ks)⟩
    intro hk
    rw [List.mem_filter] at hk
    simpa using hk.2

/-- A key that looks up successfully is among the dict's keys. -/
theorem lookupKey_mem_keys {β : Type} (k : String) (v : β) :
    ∀ (l : List (String × β)), lookupKey k l = some v → k ∈ l.map Prod.fst
  | [], h => by simp [lookupKey] at h
  | (k', v') :: rest, h => by
    by_cases hk : k' = k
    · simp [hk]
    · simp only [lookupKey, if_neg hk] at h
      simp [lookupKey_mem_keys k v rest h]

theorem improvementAt_operation (b c : List (String × OpSummary)) (k : String)
    (x : ChangeData) (h : improvementAt b c k = some x) : x.operation = k := by
  cases hb : lookupKey k b with
  | none => simp [improvementAt, hb] at h
  | some bop =>
    cases hc : lookupKey k c with
    | none => simp [improvementAt, hb, hc] at h
    | some cop =>
      simp only [improvementAt, hb, hc] at h
      split_ifs at h
      cases h
      rfl

theorem regressionAt_operation (b c : List (String × OpSummary)) (k : String)
    (x : ChangeData) (h : regressionAt b c k = some x) : x.operation = k := by
  cases hb : lookupKey k b with
  | none => simp [regressionAt, hb] at h
  | some bop =>
    cases hc : lookupKey k c with
    | none => simp [regressionAt, hb, hc] at h
    | some cop =>
      simp only [regressionAt, hb, hc] at h
      split_ifs at h
      cases h
      rfl

theorem newOpAt_eq (b : List (String × OpSummary)) (k s : String)
    (h : newOpAt b k = some s) : s = k := by
  cases hb : lookupKey k b with
  | none =>
    simp only [newOpAt, hb, Option.some_inj] at h
    exact h.symm
  | some _ => simp [newOpAt, hb] at h

theorem missingOpAt_eq (b c : List (String × OpSummary)) (k s : String)
    (h : missingOpAt b c k = some s) : s = k := by
  cases hb : lookupKey k b with
  | none => simp [missingOpAt, hb] at h
  | some _ =>
    cases hc : lookupKey k c with
    | none =>
      simp only [missingOpAt, hb, hc, Option.some_inj] at h
      exact h.symm
    | some _ => simp [missingOpAt, hb, hc] at h

/-- C5.  For an operation present in both summaries with a strictly positive
baseline average, the comparator computes
`change_percent = (current_avg − baseline_avg) / baseline_avg × 100` and
classifies: below −5 the delta is appended to `improvements`, above 5 to
`regressions`, and a value in [−5, 5] to neither list. -/
theorem comparator_change_classification (b c : List (String × OpSummary))
    (bf cf op : String) (bop cop : OpSummary)
    (hb : lookupKey op b = some bop) (hc : lookupKey op c = some cop)
    (hpos : 0 < bop.avg_duration) :
    ((cop.avg_duration - bop.avg_duration) / bop.avg_duration * 100 < -5 →
      ({ operation := op, baseline_avg := bop.avg_duration, current_avg := cop.avg_duration,
         change_percent := (cop.avg_duration - bop.avg_duration) / bop.avg_duration * 100,
         change_ms := cop.avg_duration - bop.avg_duration } : ChangeData) ∈
        (compare_ops_loop b c (initComparison bf cf)).improvements) ∧
    (5 < (cop.avg_duration - bop.avg_duration) / bop.avg_duration * 100 →
      ({ operation := op, baseline_avg := bop.avg_duration, current_avg := cop.avg_duration,
         change_percent := (cop.avg_duration - bop.avg_duration) / bop.avg_duration * 100,
         change_ms := cop.avg_duration - bop.avg_duration } : ChangeData) ∈
        (compare_ops_loop b c (initComparison bf cf)).regressions) ∧
    (-5 ≤ (cop.avg_duration - bop.avg_duration) / bop.avg_duration * 100 →
      (cop.avg_duration - bop.avg_duration) / bop.avg_duration * 100 ≤ 5 →
      (∀ x ∈ (compare_ops_loop b c (initComparison bf cf)).improvements, x.operation ≠ op) ∧
      (∀ x ∈ (compare_ops_loop b c (initComparison bf cf)).regressions, x.operation ≠ op)) := by
  have hmem : op ∈ dedupFirst (b.map Prod.fst ++ c.map Prod.fst) :=
    (mem_dedupFirst _ _).mpr (List.mem_append.mpr (Or.inl (lookupKey_mem_keys op bop b hb)))
  refine ⟨?_, ?_, ?_⟩
  · intro hcp
    have himp : improvementAt b c op = some
        { operation := op, baseline_avg := bop.avg_duration, current_avg := cop.avg_duration,
          change_percent := (cop.avg_duration - bop.avg_duration) / bop.avg_duration * 100,
          change_ms := cop.avg_duration - bop.avg_duration } := by
      simp only [improvementAt, hb, hc]
      rw [if_pos hpos, if_pos hcp]
    rw [compare_ops_loop, loop_improvements]
    simp only [initComparison, List.nil_append]
    exact List.mem_filterMap.mpr ⟨op, hmem, himp⟩
  · intro hcp
    have hreg : regressionAt b c op = some
        { operation := op, baseline_avg := bop.avg_duration, current_avg := cop.avg_duration,
          change_percent := (cop.avg_duration - bop.avg_duration) / bop.avg_duration * 100,
          change_ms := cop.avg_duration - bop.avg_duration } := by
      simp only [regressionAt, hb, hc]
      rw [if_pos hpos, if_neg (by linarith), if_pos hcp]
    rw [compare_ops_loop, loop_regressions]
    simp only [initComparison, List.nil_append]
    exact List.mem_filterMap.mpr ⟨op, hmem, hreg⟩
  · intro h1 h2
    constructor
    · intro x hx hxop
      rw [compare_ops_loop, loop_improvements] at hx
      simp only [initComparison, List.nil_append] at hx
      obtain ⟨k, -, hk⟩ := List.mem_filterMap.mp hx
      have hop : x.operation = k := improvementAt_operation b c k x hk
      rw [hxop] at hop
      rw [← hop] at hk
      have hnone : improvementAt b c op = none := by
        simp only [improvementAt, hb, hc]
        rw [if_pos hpos, if_neg (not_lt.mpr h1)]
      rw [hnone] at hk
      cases hk
    · intro x hx hxop
      rw [compare_ops_loop, loop_regressions] at hx
      simp only [initComparison, List.nil_append] at hx
      obtain ⟨k, -, hk⟩ := List.mem_filterMap.mp hx
      have hop : x.operation = k := regressionAt_operation b c k x hk
      rw [hxop] at hop
      rw [← hop] at hk
      have hnone : regressionAt b c op = none := by
        simp only [regressionAt, hb, hc]
        rw [if_pos hpos, if_neg (not_lt.mpr h1), if_neg (not_lt.mpr h2)]
      rw [hnone] at hk
      cases hk

/-- A one-record operation summary with the given average duration, used by
concrete comparator scenarios. -/
def wOS (avg : ℚ) : OpSummary :=
  { count := 1, success_count := 1, total_duration := avg, avg_duration := avg,
    median_duration := avg, min_duration := avg, max_duration := avg,
    std_duration_sq := 0, success_rate := 1 }

/-- C5 witness, the spec's scenario: baseline average 100 ms for "install";
a current average of 80 ms is an improvement with change −20 %, 106 ms a
regression with change 6 %, and 103 ms (change 3 %) lands in neither list. -/
theorem comparator_change_classification_witness :
    ({ operation := "install", baseline_avg := 100, current_avg := 80,
       change_percent := -20, change_ms := -20 } : ChangeData) ∈
      (compare_ops_loop [("install", wOS 100)] [("install", wOS 80)]
        (initComparison "base" "cur")).improvements ∧
    ({ operation := "install", baseline_avg := 100, current_avg := 106,
       change_percent := 6, change_ms := 6 } : ChangeData) ∈
      (compare_ops_loop [("install", wOS 100)] [("install", wOS 106)]
        (initComparison "base" "cur")).regressions ∧
    ((∀ x ∈ (compare_ops_loop [("install", wOS 100)] [("install", wOS 103)]
        (initComparison "base" "cur")).improvements, x.operation ≠ "install") ∧
     (∀ x ∈ (compare_ops_loop [("install", wOS 100)] [("install", wOS 103)]
        (initComparison "base" "cur")).regressions, x.operation ≠ "install")) := by
  refine ⟨?_, ?_, ?_⟩
  · have h := (comparator_change_classification [("install", wOS 100)] [("install", wOS 80)]
      "base" "cur" "install" (wOS 100) (wOS 80) rfl rfl (by norm_num [wOS])).1
      (by norm_num [wOS])
    have e1 : ((wOS 80).avg_duration - (wOS 100).avg_duration) / (wOS 100).avg_duration * 100 =
        (-20 : ℚ) := by norm_num [wOS]
    have e2 : (wOS 80).avg_duration - (wOS 100).avg_duration = (-20 : ℚ) := by norm_num [wOS]
    have e3 : (wOS 100).avg_duration = (100 : ℚ) := by norm_num [wOS]
    have e4 : (wOS 80).avg_duration = (80 : ℚ) := by norm_num [wOS]
    rw [e1, e2, e3, e4] at h
    exact h
  · have h := (comparator_change_classification [("install", wOS 100)] [("install", wOS 106)]
      "base" "cur" "install" (wOS 100) (wOS 106) rfl rfl (by norm_num [wOS])).2.1
      (by norm_num [wOS])
    have e1 : ((wOS 106).avg_duration - (wOS 100).avg_duration) / (wOS 100).avg_duration * 100 =
        (6 : ℚ) := by norm_num [wOS]
    have e2 : (wOS 106).avg_duration - (wOS 100).avg_duration = (6 : ℚ) := by norm_num [wOS]
    have e3 : (wOS 100).avg_duration = (100 : ℚ) := by norm_num [wOS]
    have e4 : (wOS 106).avg_duration = (106 : ℚ) := by norm_num [wOS]
    rw [e1, e2, e3, e4] at h
    exact h
  · exact (comparator_change_classification [("install", wOS 100)] [("install", wOS 103)]
      "base" "cur" "install" (wOS 100) (wOS 103) rfl rfl (by norm_num [wOS])).2.2
      (by norm_num [wOS]) (by norm_num [wOS])

/-- C6.  An operation present in both summaries whose baseline average is 0
is skipped entirely: it lands in none of the four lists (the division guard
`if baseline_avg > 0` prevents the division from ever being executed). -/
theorem comparator_zero_baseline_skip (b c : List (String × OpSummary))
    (bf cf op : String) (bop cop : OpSummary)
    (hb : lookupKey op b = some bop) (hc : lookupKey op c = some cop)
    (h0 : bop.avg_duration = 0) :
    (∀ x ∈ (compare_ops_loop b c (initComparison bf cf)).improvements, x.operation ≠ op) ∧
    (∀ x ∈ (compare_ops_loop b c (initComparison bf cf)).regressions, x.operation ≠ op) ∧
    op ∉ (compare_ops_loop b c (initComparison bf cf)).new_operations ∧
    op ∉ (compare_ops_loop b c (initComparison bf cf)).missing_operations := by
  have hng : ¬ (0 < bop.avg_duration) := by rw [h0]; exact lt_irrefl 0
  refine ⟨?_, ?_, ?_, ?_⟩
  · intro x hx hxop
    rw [compare_ops_loop, loop_improvements] at hx
    simp only [initComparison, List.nil_append] at hx
    obtain ⟨k, -, hk⟩ := List.mem_filterMap.mp hx
    have hop : x.operation = k := improvementAt_operation b c k x hk
    rw [hxop] at hop
    rw [← hop] at hk
    have hnone : improvementAt b c op = none := by
      simp only [improvementAt, hb, hc]
      rw [if_neg hng]
    rw [hnone] at hk
    cases hk
  · intro x hx hxop
    rw [compare_ops_loop, loop_regressions] at hx
    simp only [initComparison, List.nil_append] at hx
    obtain ⟨k, -, hk⟩ := List.mem_filterMap.mp hx
    have hop : x.operation = k := regressionAt_operation b c k x hk
    rw [hxop] at hop
    rw [← hop] at hk
    have hnone : regressionAt b c op = none := by
      simp only [regressionAt, hb, hc]
      rw [if_neg hng]
    rw [hnone] at hk
    cases hk
  · intro hx
    rw [compare_ops_loop, loop_new] at hx
    simp only [initComparison, List.nil_append] at hx
    obtain ⟨k, -, hk⟩ := List.mem_filterMap.mp hx
    have hop : op = k := newOpAt_eq b k op hk
    rw [← hop] at hk
    have hnone : newOpAt b op = none := by simp only [newOpAt, hb]
    rw [hnone] at hk
    cases hk
  · intro hx
    rw [compare_ops_loop, loop_missing] at hx
    simp only [initComparison, List.nil_append] at hx
    obtain ⟨k, -, hk⟩ := List.mem_filterMap.mp hx
    have hop : op = k := missingOpAt_eq b c k op hk
    rw [← hop] at hk
    have hnone : missingOpAt b c op = none := by simp only [missingOpAt, hb, hc]
    rw [hnone] at hk
    cases hk

/-- C6 witness: a baseline average of exactly 0 for "cold", with the current
average far away, still places "cold" in none of the four result lists. -/
theorem comparator_zero_baseline_skip_witness :
    (∀ x ∈ (compare_ops_loop [("cold", wOS 0)] [("cold", wOS 500)]
        (initComparison "base" "cur")).improvements, x.operation ≠ "cold") ∧
    (∀ x ∈ (compare_ops_loop [("cold", wOS 0)] [("cold", wOS 500)]
        (initComparison "base" "cur")).regressions, x.operation ≠ "cold") ∧
    "cold" ∉ (compare_ops_loop [("cold", wOS 0)] [("cold", wOS 500)]
        (initComparison "base" "cur")).new_operations ∧
    "cold" ∉ (compare_ops_loop [("cold", wOS 0)] [("cold", wOS 500)]
        (initComparison "base" "cur")).missing_operations :=
  comparator_zero_baseline_skip [("cold", wOS 0)] [("cold", wOS 500)] "base" "cur" "cold"
    (wOS 0) (wOS 500) rfl rfl (by norm_num [wOS])

/-! ## Aggregator lemmas -/

theorem lookupKey_updateAList {β : Type} (k k' : String) (d : β) (f : β → β) :
    ∀ (l : List (String × β)),
      lookupKey k (updateAList k' d f l) =
        if k' = k then some (f ((lookupKey k' l).getD d)) else lookupKey k l
  | [] => by
    by_cases h : k' = k <;> simp [updateAList, lookupKey, h]
  | (a, v) :: rest => by
    by_cases ha : a = k'
    · subst ha
      by_cases hk : a = k <;> simp [updateAList, lookupKey, hk]
    · by_cases hk : k' = k
      · subst hk
        have hak : a ≠ k' := ha
        simp [updateAList, if_neg ha, lookupKey, hak, lookupKey_updateAList k' k' d f rest]
      · simp only [updateAList, if_neg ha, lookupKey]
        by_cases hak : a = k
        · simp [hak, if_neg hk]
        · simp [hak, lookupKey_updateAList k k' d f rest, if_neg hk]

/-- Accumulate a record list into an optional operation group, starting the
group at the first record when it is absent. -/
def statsFold (o : Option OpStats) (rs : List RawRecord) : Option OpStats :=
  rs.foldl (fun acc r => some (opStatsAdd (acc.getD emptyOpStats) r)) o

/-- The group stored at key `k` after the grouping loop is a function of the
records whose operation reads `k`, in input order. -/
theorem lookupKey_foldl_groupStep (k : String) :
    ∀ (rs : List RawRecord) (acc : List (String × OpStats)),
      lookupKey k (rs.foldl groupStep acc) =
        statsFold (lookupKey k acc) (rs.filter (fun r => decide (r.getOperation = k)))
  | [], acc => by simp [statsFold]
  | r :: rs, acc => by
    rw [List.foldl_cons, lookupKey_foldl_groupStep k rs]
    by_cases hop : r.getOperation = k
    · rw [List.filter_cons_of_pos (by simpa using hop)]
      have : lookupKey k (groupStep acc r) =
          some (opStatsAdd ((lookupKey k acc).getD emptyOpStats) r) := by
        rw [groupStep, lookupKey_updateAList, if_pos hop, hop]
      rw [this, statsFold, statsFold, List.foldl_cons]
    · rw [List.filter_cons_of_neg (by simpa using hop)]
      have : lookupKey k (groupStep acc r) = lookupKey k acc := by
        rw [groupStep, lookupKey_updateAList, if_neg hop]
      rw [this]

theorem statsFold_some (s : OpStats) :
    ∀ (rs : List RawRecord), statsFold (some s) rs = some (rs.foldl opStatsAdd s)
  | [] => rfl
  | r :: rs => by
    rw [statsFold, List.foldl_cons]
    simpa [List.foldl_cons] using statsFold_some (opStatsAdd s r) rs

theorem statsFold_none_eq (rs : List RawRecord) :
    statsFold none rs = if rs = [] then none else some (rs.foldl opStatsAdd emptyOpStats) := by
  cases rs with
  | nil => rfl
  | cons r rest =>
    rw [statsFold, List.foldl_cons, if_neg (by simp)]
    simpa [List.foldl_cons] using statsFold_some (opStatsAdd emptyOpStats r) rest

theorem lookupKey_groupOps (k : String) (l : List RawRecord) :
    lookupKey k (groupOps l) =
      statsFold none (l.filter (fun r => decide (r.getOperation = k))) := by
  rw [groupOps, lookupKey_foldl_groupStep]
  rfl

theorem foldl_opStatsAdd_durations :
    ∀ (rs : List RawRecord) (s : OpStats),
      (rs.foldl opStatsAdd s).durations = s.durations ++ rs.map RawRecord.getDuration
  | [], s => by simp
  | r :: rs, s => by
    rw [List.foldl_cons, foldl_opStatsAdd_durations rs]
    simp [opStatsAdd]

theorem foldl_opStatsAdd_count :
    ∀ (rs : List RawRecord) (s : OpStats),
      (rs.foldl opStatsAdd s).count = s.count + rs.length
  | [], s => by simp
  | r :: rs, s => by
    rw [List.foldl_cons, foldl_opStatsAdd_count rs]
    simp [opStatsAdd]
    omega

theorem foldl_opStatsAdd_success :
    ∀ (rs : List RawRecord) (s : OpStats),
      (rs.foldl opStatsAdd s).success_count =
        s.success_count + rs.countP (fun r => r.getSuccess)
  | [], s => by simp
  | r :: rs, s => by
    rw [List.foldl_cons, foldl_opStatsAdd_success rs, List.countP_cons]
    cases h : r.getSuccess <;> (simp [opStatsAdd, h]; try omega)

theorem foldl_opStatsAdd_total :
    ∀ (rs : List RawRecord) (s : OpStats),
      (rs.foldl opStatsAdd s).total_duration =
        s.total_duration + (rs.map RawRecord.getDuration).sum
  | [], s => by simp
  | r :: rs, s => by
    rw [List.foldl_cons, foldl_opStatsAdd_total rs]
    simp [opStatsAdd]
    ring

theorem foldl_recordStep_fst :
    ∀ (rs : List RawRecord) (a : List (String × OpStats)) (b : List (String × ToolStats)),
      (rs.foldl recordStep (a, b)).1 = rs.foldl groupStep a
  | [], a, b => rfl
  | r :: rs, a, b => by
    rw [List.foldl_cons, List.foldl_cons]
    exact foldl_recordStep_fst rs _ _

theorem buildSummary_operations (n : String) (l : List RawRecord) :
    (buildSummary n l).operations = (groupOps l).map (fun p => (p.1, finalizeOp p.2)) := by
  rw [buildSummary, groupOps]
  simp [foldl_recordStep_fst]

theorem lookupKey_map_snd {β γ : Type} (g : β → γ) (k : String) :
    ∀ (l : List (String × β)),
      lookupKey k (l.map (fun p => (p.1, g p.2))) = (lookupKey k l).map g
  | [] => rfl
  | (a, v) :: rest => by
    by_cases ha : a = k <;> simp [lookupKey, ha, lookupKey_map_snd g k rest]

theorem lookupKey_eq_none {β : Type} (k : String) :
    ∀ (l : List (String × β)), lookupKey k l = none ↔ k ∉ l.map Prod.fst
  | [] => by simp [lookupKey]
  | (a, v) :: rest => by
    simp only [lookupKey, List.map_cons, List.mem_cons]
    by_cases ha : a = k
    · subst ha
      simp
    · rw [if_neg ha, lookupKey_eq_none k rest]
      constructor
      · intro h
        push_neg
        exact ⟨fun he => ha he.symm, h⟩
      · intro h
        push_neg at h
        exact h.2

theorem mem_keys_groupOps (k : String) (l : List RawRecord) :
    k ∈ (groupOps l).map Prod.fst ↔ ∃ r ∈ l, r.getOperation = k := by
  rw [← not_iff_not, ← lookupKey_eq_none, lookupKey_groupOps, statsFold_none_eq]
  by_cases h : l.filter (fun r => decide (r.getOperation = k)) = []
  · rw [if_pos h]
    have hno : ¬ ∃ r ∈ l, r.getOperation = k := by
      rw [List.filter_eq_nil_iff] at h
      push_neg
      intro r hr
      simpa using h r hr
    simp [hno]
  · rw [if_neg h]
    obtain ⟨r, hrf⟩ := List.exists_mem_of_ne_nil _ h
    rw [List.mem_filter] at hrf
    have hex : ∃ r ∈ l, r.getOperation = k := ⟨r, hrf.1, by simpa using hrf.2⟩
    simp [hex]

/-! ## Sample-variance lemmas -/

theorem sum_const_eq (c : ℚ) :
    ∀ (xs : List ℚ), (∀ x ∈ xs, x = c) → xs.sum = c * xs.length
  | [], _ => by simp
  | x :: xs, h => by
    rw [List.sum_cons, sum_const_eq c xs (fun y hy => h y (List.mem_cons_of_mem x hy)),
      h x (List.mem_cons_self x xs)]
    simp only [List.length_cons]
    push_cast
    ring

theorem meanQ_const (xs : List ℚ) (c : ℚ) (hne : xs ≠ []) (h : ∀ x ∈ xs, x = c) :
    meanQ xs = c := by
  have hlen : (xs.length : ℚ) ≠ 0 :=
    Nat.cast_ne_zero.mpr (fun h0 => hne (List.length_eq_zero.mp h0))
  rw [meanQ, sum_const_eq c xs h, mul_div_assoc, div_self hlen, mul_one]

theorem sum_nonneg_eq_zero_iff :
    ∀ (ys : List ℚ), (∀ y ∈ ys, 0 ≤ y) → (ys.sum = 0 ↔ ∀ y ∈ ys, y = 0)
  | [], _ => by simp
  | y :: ys, h => by
    have hy : 0 ≤ y := h y (List.mem_cons_self y ys)
    have hrest : ∀ z ∈ ys, 0 ≤ z := fun z hz => h z (List.mem_cons_of_mem y hz)
    have hs : 0 ≤ ys.sum := List.sum_nonneg hrest
    rw [List.sum_cons]
    constructor
    · intro h0
      have hy0 : y = 0 := by linarith
      have hs0 : ys.sum = 0 := by linarith
      intro z hz
      rcases List.mem_cons.mp hz with rfl | hz'
      · exact hy0
      · exact ((sum_nonneg_eq_zero_iff ys hrest).mp hs0) z hz'
    · intro hall
      rw [hall y (List.mem_cons_self y ys), zero_add]
      exact (sum_nonneg_eq_zero_iff ys hrest).mpr
        (fun z hz => hall z (List.mem_cons_of_mem y hz))

/-- The sample variance of two or more values vanishes exactly when the
values are all equal. -/
theorem sampleVarQ_eq_zero_iff (xs : List ℚ) (hlen : 1 < xs.length) :
    sampleVarQ xs = 0 ↔ ∀ x ∈ xs, ∀ y ∈ xs, x = y := by
  have hne : xs ≠ [] := by
    intro h
    rw [h] at hlen
    simp at hlen
  have hden : ((xs.length : ℚ) - 1) ≠ 0 := by
    have h2 : (2 : ℚ) ≤ (xs.length : ℚ) := by exact_mod_cast hlen
    linarith
  rw [sampleVarQ, div_eq_zero_iff]
  simp only [hden, or_false]
  rw [sum_nonneg_eq_zero_iff _ (by
    intro y hy
    obtain ⟨x, -, rfl⟩ := List.mem_map.mp hy
    exact sq_nonneg _)]
  constructor
  · intro h x hx y hy
    have hx0 := h _ (List.mem_map_of_mem _ hx)
    have hy0 := h _ (List.mem_map_of_mem _ hy)
    have hx1 : x = meanQ xs := by
      have := pow_eq_zero_iff (n := 2) (by norm_num) |>.mp hx0
      linarith [sub_eq_zero.mp this]
    have hy1 : y = meanQ xs := by
      have := pow_eq_zero_iff (n := 2) (by norm_num) |>.mp hy0
      linarith [sub_eq_zero.mp this]
    rw [hx1, hy1]
  · intro hall z hz
    obtain ⟨x, hx, rfl⟩ := List.mem_map.mp hz
    obtain ⟨a, ha⟩ := List.exists_mem_of_ne_nil xs hne
    have hac : ∀ w ∈ xs, w = a := fun w hw => hall w hw a ha
    have hmean : meanQ xs = a := meanQ_const xs a hne hac
    rw [hac x hx, hmean]
    ring

/-- C8 (amended).  For every group of the generated summary: its count is the
number of matching records; for two or more records `std_duration` is the
sample standard deviation (its square is the sample variance, divided by
n − 1); and it vanishes exactly when the group has one record or all its
durations are equal — not only in the one-record case. -/
theorem std_zero_characterization (n : String) (l : List RawRecord) (k : String)
    (s : OpSummary)
    (h : lookupKey k (buildSummary n l).operations = some s) :
    s.count = (l.filter (fun r => decide (r.getOperation = k))).length ∧
    (1 < s.count → s.std_duration_sq =
      sampleVarQ ((l.filter (fun r => decide (r.getOperation = k))).map RawRecord.getDuration)) ∧
    (s.std_duration_sq = 0 ↔ s.count = 1 ∨
      ∀ x ∈ (l.filter (fun r => decide (r.getOperation = k))).map RawRecord.getDuration,
      ∀ y ∈ (l.filter (fun r => decide (r.getOperation = k))).map RawRecord.getDuration,
        x = y) := by
  rw [buildSummary_operations, lookupKey_map_snd, lookupKey_groupOps,
    statsFold_none_eq] at h
  by_cases hf : l.filter (fun r => decide (r.getOperation = k)) = []
  · rw [if_pos hf] at h
    exact absurd h (by simp)
  · rw [if_neg hf] at h
    simp only [Option.map_some', Option.some_inj] at h
    set g := l.filter (fun r => decide (r.getOperation = k)) with hg
    have hdur : ((g.foldl opStatsAdd emptyOpStats).durations) = g.map RawRecord.getDuration := by
      rw [foldl_opStatsAdd_durations]
      simp [emptyOpStats]
    have hcnt : ((g.foldl opStatsAdd emptyOpStats).count) = g.length := by
      rw [foldl_opStatsAdd_count]
      simp [emptyOpStats]
    have hdne : g.map RawRecord.getDuration ≠ [] := by
      intro h0
      exact hf (List.map_eq_nil_iff.mp h0)
    have hdlen : (g.map RawRecord.getDuration).length = g.length := List.length_map g _
    have hscount : s.count = g.length := by
      rw [← h, finalizeOp, hcnt]
    refine ⟨hscount, ?_, ?_⟩
    · intro hlt
      rw [← h]
      simp only [finalizeOp]
      rw [hdur, if_neg hdne, if_pos (by rw [hdlen, ← hscount]; exact hlt)]
    · have hstd : s.std_duration_sq =
          if 1 < g.length then sampleVarQ (g.map RawRecord.getDuration) else 0 := by
        rw [← h]
        simp only [finalizeOp]
        rw [hdur, if_neg hdne, hdlen]
      by_cases hlt : 1 < g.length
      · rw [hstd, if_pos hlt, sampleVarQ_eq_zero_iff _ (by rw [hdlen]; exact hlt)]
        have hc1 : ¬ s.count = 1 := by
          rw [hscount]
          omega
        simp [hc1]
      · have hone : g.length = 1 := by
          have : g.length ≠ 0 := fun h0 => hf (List.length_eq_zero.mp h0)
          omega
        rw [hstd, if_neg hlt]
        simp [hscount, hone]

/-- A successful 5 ms "install" record. -/
def cexRec8 : RawRecord :=
  { operation := some "install", tool := some "uv", duration_ms := some 5,
    success := some true, timestamp := none }

/-- C8 counterexample.  Two records with the same operation and the same
duration give a group with count 2 whose standard deviation is 0: zero
standard deviation does not imply a one-record group. -/
theorem std_two_equal_records_cex :
    (lookupKey "install" (buildSummary "bench" [cexRec8, cexRec8]).operations).map
      (fun s => (s.count, s.std_duration_sq)) = some (2, 0) := by
  rw [buildSummary_operations, lookupKey_map_snd, lookupKey_groupOps]
  norm_num [cexRec8, RawRecord.getOperation, RawRecord.getDuration, RawRecord.getSuccess,
    statsFold, opStatsAdd, emptyOpStats, finalizeOp, sampleVarQ, meanQ]

/-- A successful 4 ms "install" record. -/
def wRec8a : RawRecord :=
  { operation := some "install", tool := some "uv", duration_ms := some 4,
    success := some true, timestamp := none }

/-- A successful 6 ms "install" record. -/
def wRec8b : RawRecord :=
  { operation := some "install", tool := some "uv", duration_ms := some 6,
    success := some true, timestamp := none }

/-- C8 witness at a concrete two-record group with distinct durations. -/
theorem std_zero_characterization_witness :
    ∃ s, lookupKey "install" (buildSummary "bench" [wRec8a, wRec8b]).operations = some s ∧
      (s.count = ([wRec8a, wRec8b].filter (fun r => decide (r.getOperation = "install"))).length ∧
      (1 < s.count → s.std_duration_sq = sampleVarQ
        (([wRec8a, wRec8b].filter (fun r => decide (r.getOperation = "install"))).map
          RawRecord.getDuration)) ∧
      (s.std_duration_sq = 0 ↔ s.count = 1 ∨
        ∀ x ∈ ([wRec8a, wRec8b].filter (fun r => decide (r.getOperation = "install"))).map
          RawRecord.getDuration,
        ∀ y ∈ ([wRec8a, wRec8b].filter (fun r => decide (r.getOperation = "install"))).map
          RawRecord.getDuration, x = y)) := by
  have hl : lookupKey "install" (buildSummary "bench" [wRec8a, wRec8b]).operations =
      some (finalizeOp (opStatsAdd (opStatsAdd emptyOpStats wRec8a) wRec8b)) := by
    rw [buildSummary_operations, lookupKey_map_snd, lookupKey_groupOps]
    simp [statsFold, wRec8a, wRec8b, RawRecord.getOperation]
  exact ⟨_, hl, std_zero_characterization "bench" [wRec8a, wRec8b] "install" _ hl⟩

/-! ## String-order laws -/

theorem strLtAux_asymm : ∀ {l1 l2 : List Char},
    strLtAux l1 l2 = true → strLtAux l2 l1 = true → False
  | [], [], h, _ => by simp [strLtAux] at h
  | [], _ :: _, _, h2 => by simp [strLtAux] at h2
  | _ :: _, [], h, _ => by simp [strLtAux] at h
  | a :: as, b :: bs, h, h2 => by
    simp only [strLtAux] at h h2
    by_cases hab : a < b
    · have hba : ¬ b < a := lt_asymm hab
      simp [hab, hba] at h2
    · by_cases hba : b < a
      · simp [hab, hba] at h
      · simp [hab, hba] at h h2
        exact strLtAux_asymm h h2

theorem strLtAux_total : ∀ (l1 l2 : List Char),
    strLtAux l1 l2 = true ∨ l1 = l2 ∨ strLtAux l2 l1 = true
  | [], [] => Or.inr (Or.inl rfl)
  | [], _ :: _ => Or.inl (by simp [strLtAux])
  | _ :: _, [] => Or.inr (Or.inr (by simp [strLtAux]))
  | a :: as, b :: bs => by
    by_cases hab : a < b
    · exact Or.inl (by simp [strLtAux, hab])
    · by_cases hba : b < a
      · exact Or.inr (Or.inr (by simp [strLtAux, hba, lt_asymm hba]))
      · have hab' : a = b := le_antisymm (not_lt.mp hba) (not_lt.mp hab)
        subst hab'
        rcases strLtAux_total as bs with h | h | h
        · exact Or.inl (by simp [strLtAux, h, lt_irrefl])
        · exact Or.inr (Or.inl (by rw [h]))
        · exact Or.inr (Or.inr (by simp [strLtAux, h, lt_irrefl]))

theorem strLtAux_trans : ∀ (l1 l2 l3 : List Char),
    strLtAux l1 l2 = true → strLtAux l2 l3 = true → strLtAux l1 l3 = true
  | _, [], [], _, h2 => by simp [strLtAux] at h2
  | _, _ :: _, [], _, h2 => by simp [strLtAux] at h2
  | [], _, _ :: _, _, _ => by simp [strLtAux]
  | a :: as, [], c :: cs, h1, _ => by simp [strLtAux] at h1
  | a :: as, b :: bs, c :: cs, h1, h2 => by
    simp only [strLtAux] at h1 h2 ⊢
    by_cases hab : a < b
    · by_cases hbc : b < c
      · simp [lt_trans hab hbc]
      · by_cases hcb : c < b
        · simp [hbc, hcb] at h2
        · have hbc' : b = c := le_antisymm (not_lt.mp hcb) (not_lt.mp hbc)
          subst hbc'
          simp [hab]
    · by_cases hba : b < a
      · simp [hab, hba] at h1
      · have hab' : a = b := le_antisymm (not_lt.mp hba) (not_lt.mp hab)
        subst hab'
        simp only [hab, lt_irrefl, if_false] at h1
        by_cases hac : a < c
        · simp [hac]
        · by_cases hca : c < a
          · simp [hac, hca] at h2
          · have hac' : a = c := le_antisymm (not_lt.mp hca) (not_lt.mp hac)
            subst hac'
            simp only [lt_irrefl, if_false] at h2 ⊢
            exact strLtAux_trans as bs cs h1 h2

theorem strLt_asymm (s t : String) : strLt s t = true → strLt t s = true → False :=
  fun h1 h2 => strLtAux_asymm h1 h2

theorem strLt_trans (s t u : String) :
    strLt s t = true → strLt t u = true → strLt s u = true :=
  fun h1 h2 => strLtAux_trans s.data t.data u.data h1 h2

theorem strLt_irrefl (s : String) : strLt s s = false := by
  cases h : strLt s s with
  | false => rfl
  | true => exact (strLt_asymm s s h h).elim

theorem strLt_total_eq (s t : String) :
    strLt s t = false → strLt t s = false → s = t := by
  intro h1 h2
  rcases strLtAux_total s.data t.data with h | h | h
  · rw [strLt] at h1
    rw [h1] at h
    cases h
  · cases s
    cases t
    exact congrArg String.mk h
  · rw [strLt] at h2
    rw [h2] at h
    cases h

/-! ## Sorting and selection lemmas -/

theorem insByName_perm (f : ResultFile) :
    ∀ (l : List ResultFile), (insByName f l).Perm (f :: l)
  | [] => List.Perm.refl _
  | g :: gs => by
    rw [insByName]
    split_ifs
    · exact List.Perm.refl _
    · exact ((insByName_perm f gs).cons g).trans (List.Perm.swap f g gs)

theorem sortByName_perm : ∀ (l : List ResultFile), (sortByName l).Perm l
  | [] => List.Perm.refl _
  | f :: fs => (insByName_perm f (sortByName fs)).trans ((sortByName_perm fs).cons f)

theorem insByName_pairwise (f : ResultFile) :
    ∀ (l : List ResultFile), l.Pairwise (fun a b => strLt b.name a.name = false) →
      (insByName f l).Pairwise (fun a b => strLt b.name a.name = false)
  | [], _ => by simp [insByName]
  | g :: gs, hp => by
    obtain ⟨hg, hgs⟩ := List.pairwise_cons.mp hp
    rw [insByName]
    split_ifs with hlt
    · refine List.pairwise_cons.mpr ⟨?_, hp⟩
      intro x hx
      rcases List.mem_cons.mp hx with rfl | hx'
      · cases h : strLt x.name f.name with
        | false => rfl
        | true => exact (strLt_asymm f.name x.name hlt h).elim
      · cases h : strLt x.name f.name with
        | false => rfl
        | true => exact absurd (strLt_trans x.name f.name g.name h hlt) (by rw [hg x hx']; simp)
    · refine List.pairwise_cons.mpr ⟨?_, insByName_pairwise f gs hgs⟩
      intro x hx
      have hx2 : x ∈ f :: gs := (insByName_perm f gs).mem_iff.mp hx
      rcases List.mem_cons.mp hx2 with rfl | hx'
      · simpa using hlt
      · exact hg x hx'

theorem sortByName_pairwise :
    ∀ (l : List ResultFile),
      (sortByName l).Pairwise (fun a b => strLt b.name a.name = false)
  | [] => List.Pairwise.nil
  | f :: fs => insByName_pairwise f (sortByName fs) (sortByName_pairwise fs)

theorem getLast?_mem {α : Type} : ∀ (l : List α) (y : α), l.getLast? = some y → y ∈ l
  | [], y, h => by simp at h
  | [a], y, h => by
    simp only [List.getLast?_singleton, Option.some_inj] at h
    simp [h]
  | a :: b :: l, y, h => by
    rw [List.getLast?_cons_cons] at h
    exact List.mem_cons_of_mem a (getLast?_mem (b :: l) y h)

theorem pairwise_getLast_max {α : Type} {R : α → α → Prop} :
    ∀ (l : List α), l.Pairwise R → ∀ (y : α), l.getLast? = some y →
      ∀ x ∈ l, x = y ∨ R x y
  | [], _, y, h => by simp at h
  | [a], _, y, h => by
    simp only [List.getLast?_singleton, Option.some_inj] at h
    intro x hx
    rcases List.mem_singleton.mp hx with rfl
    exact Or.inl h
  | a :: b :: l, hp, y, h => by
    rw [List.getLast?_cons_cons] at h
    intro x hx
    rcases List.mem_cons.mp hx with rfl | hx'
    · exact Or.inr ((List.pairwise_cons.mp hp).1 y (getLast?_mem (b :: l) y h))
    · exact pairwise_getLast_max (b :: l) (List.pairwise_cons.mp hp).2 y h x hx'

theorem foldl_mtime_max :
    ∀ (rest : List ResultFile) (f : ResultFile),
      (rest.foldl (fun best g => if best.mtime < g.mtime then g else best) f = f ∨
        rest.foldl (fun best g => if best.mtime < g.mtime then g else best) f ∈ rest) ∧
      f.mtime ≤ (rest.foldl (fun best g => if best.mtime < g.mtime then g else best) f).mtime ∧
      ∀ x ∈ rest, x.mtime ≤ (rest.foldl (fun best g => if best.mtime < g.mtime then g else best) f).mtime
  | [], f => ⟨Or.inl rfl, le_refl _, by simp⟩
  | g :: rest, f => by
    rw [List.foldl_cons]
    obtain ⟨hmem, hle, hall⟩ := foldl_mtime_max rest (if f.mtime < g.mtime then g else f)
    have hfle : f.mtime ≤ (if f.mtime < g.mtime then g else f).mtime := by
      split_ifs with h
      · exact le_of_lt h
      · exact le_refl _
    have hgle : g.mtime ≤ (if f.mtime < g.mtime then g else f).mtime := by
      split_ifs with h
      · exact le_refl _
      · exact not_lt.mp h
    refine ⟨?_, le_trans hfle hle, ?_⟩
    · rcases hmem with hm | hm
      · rw [hm]
        split_ifs with h
        · exact Or.inr (List.mem_cons_self g rest)
        · exact Or.inl rfl
      · exact Or.inr (List.mem_cons_of_mem g hm)
    · intro x hx
      rcases List.mem_cons.mp hx with rfl | hx'
      · exact le_trans hgle hle
      · exact hall x hx'

/-- C9 (amended).  The summarize/compare/report path picks the element of
`list_results` with the lexicographically greatest name among the matching
files; the threshold-check auto-discovery path instead picks a matching file
of maximal modification time — not the lexicographically latest name. -/
theorem latest_file_selection (fs dir : List ResultFile) (g m : ResultFile)
    (hout : (list_results fs).getLast? = some g)
    (hm : find_latest_benchmark_file (some dir) = some m) :
    ((∀ f ∈ list_results fs, strLt g.name f.name = false) ∧
      g ∈ fs ∧ benchPat g.name = true) ∧
    (m ∈ dir ∧ benchPat m.name = true ∧
      ∀ x ∈ dir, benchPat x.name = true → x.mtime ≤ m.mtime) := by
  constructor
  · have hpw := sortByName_pairwise (fs.filter (fun f => benchPat f.name))
    have hmax := pairwise_getLast_max _ hpw g hout
    have hgmem : g ∈ fs.filter (fun f => benchPat f.name) :=
      (sortByName_perm _).mem_iff.mp (getLast?_mem _ g hout)
    rw [List.mem_filter] at hgmem
    refine ⟨?_, hgmem.1, hgmem.2⟩
    intro f hf
    rcases hmax f hf with rfl | hr
    · exact strLt_irrefl f.name
    · exact hr
  · rw [find_latest_benchmark_file] at hm
    cases hflt : dir.filter (fun f => benchPat f.name) with
    | nil =>
      rw [hflt] at hm
      cases hm
    | cons f rest =>
      rw [hflt] at hm
      simp only [Option.some_inj] at hm
      obtain ⟨hmem, hle, hall⟩ := foldl_mtime_max rest f
      rw [hm] at hmem hle hall
      have hmflt : m ∈ dir.filter (fun f => benchPat f.name) := by
        rw [hflt]
        rcases hmem with hm' | hm'
        · rw [hm']
          exact List.mem_cons_self f rest
        · exact List.mem_cons_of_mem f hm'
      rw [List.mem_filter] at hmflt
      refine ⟨hmflt.1, hmflt.2, ?_⟩
      intro x hx hpat
      have hxflt : x ∈ dir.filter (fun f => benchPat f.name) :=
        List.mem_filter.mpr ⟨hx, hpat⟩
      rw [hflt] at hxflt
      rcases List.mem_cons.mp hxflt with rfl | hx'
      · exact hle
      · exact hall x hx'

/-- A matching result file whose name sorts first but whose modification time
is the greater. -/
def cexFA : ResultFile := { name := "benchmark_results_1.json", mtime := 200, records := some [] }

/-- A matching result file whose name sorts last but whose modification time
is the smaller. -/
def cexFB : ResultFile := { name := "benchmark_results_2.json", mtime := 100, records := some [] }

/-- C9 counterexample.  Over the same directory, the summarize path selects
the lexicographically latest name (`..._2.json`) while the threshold-check
auto-discovery selects the other file, whose modification time is greater —
so the two paths do not both select the lexicographically latest file. -/
theorem latest_file_mtime_cex :
    (list_results [cexFA, cexFB]).getLast? = some cexFB ∧
    find_latest_benchmark_file (some [cexFA, cexFB]) = some cexFA ∧
    cexFA.name ≠ cexFB.name :=
  ⟨rfl, rfl, by decide⟩

/-- C9 witness at the two-file directory of the counterexample. -/
theorem latest_file_selection_witness :
    ((∀ f ∈ list_results [cexFA, cexFB], strLt cexFB.name f.name = false) ∧
      cexFB ∈ [cexFA, cexFB] ∧ benchPat cexFB.name = true) ∧
    (cexFA ∈ [cexFA, cexFB] ∧ benchPat cexFA.name = true ∧
      ∀ x ∈ [cexFA, cexFB], benchPat x.name = true → x.mtime ≤ cexFA.mtime) :=
  latest_file_selection [cexFA, cexFB] [cexFA, cexFB] cexFB cexFA rfl rfl

/-- C10.  `set_baseline` either fails and leaves the persisted baseline store
untouched, or the summary was generated successfully and the store is
overwritten with exactly that summary: the baseline is never written without
a successfully generated summary. -/
theorem set_baseline_write_discipline (fs : List ResultFile) (rf : Option String)
    (store : Option BaselineData) (now : String) :
    set_baseline fs rf store now = (false, store) ∨
    ∃ s, generate_summary fs rf = Except.ok s ∧
      set_baseline fs rf store now = (true, some (mkBaselineData now s)) := by
  cases rf with
  | none =>
    cases hg : generate_summary fs none with
    | error e => exact Or.inl (by simp [set_baseline, set_baseline_gen, hg])
    | ok s => exact Or.inr ⟨s, rfl, by simp [set_baseline, set_baseline_gen, hg]⟩
  | some p =>
    cases hfind : (findFile fs p).isSome with
    | false => exact Or.inl (by simp [set_baseline, hfind])
    | true =>
      cases hg : generate_summary fs (some p) with
      | error e => exact Or.inl (by simp [set_baseline, hfind, set_baseline_gen, hg])
      | ok s => exact Or.inr ⟨s, rfl, by simp [set_baseline, hfind, set_baseline_gen, hg]⟩

/-! ## Permutation invariance of the statistics -/

theorem foldl_min_spec : ∀ (rest : List ℚ) (x : ℚ),
    (rest.foldl min x = x ∨ rest.foldl min x ∈ rest) ∧
    rest.foldl min x ≤ x ∧ ∀ y ∈ rest, rest.foldl min x ≤ y
  | [], x => ⟨Or.inl rfl, le_refl _, by simp⟩
  | y :: rest, x => by
    rw [List.foldl_cons]
    obtain ⟨hmem, hle, hall⟩ := foldl_min_spec rest (min x y)
    refine ⟨?_, le_trans hle (min_le_left x y), ?_⟩
    · rcases hmem with hm | hm
      · rcases min_choice x y with hc | hc
        · rw [hm, hc]
          exact Or.inl rfl
        · rw [hm, hc]
          exact Or.inr (List.mem_cons_self y rest)
      · exact Or.inr (List.mem_cons_of_mem y hm)
    · intro z hz
      rcases List.mem_cons.mp hz with rfl | hz'
      · exact le_trans hle (min_le_right x z)
      · exact hall z hz'

theorem foldl_max_spec : ∀ (rest : List ℚ) (x : ℚ),
    (rest.foldl max x = x ∨ rest.foldl max x ∈ rest) ∧
    x ≤ rest.foldl max x ∧ ∀ y ∈ rest, y ≤ rest.foldl max x
  | [], x => ⟨Or.inl rfl, le_refl _, by simp⟩
  | y :: rest, x => by
    rw [List.foldl_cons]
    obtain ⟨hmem, hle, hall⟩ := foldl_max_spec rest (max x y)
    refine ⟨?_, le_trans (le_max_left x y) hle, ?_⟩
    · rcases hmem with hm | hm
      · rcases max_choice x y with hc | hc
        · rw [hm, hc]
          exact Or.inl rfl
        · rw [hm, hc]
          exact Or.inr (List.mem_cons_self y rest)
      · exact Or.inr (List.mem_cons_of_mem y hm)
    · intro z hz
      rcases List.mem_cons.mp hz with rfl | hz'
      · exact le_trans (le_max_right x z) hle
      · exact hall z hz'

theorem minQ_spec : ∀ (d : List ℚ), d ≠ [] → minQ d ∈ d ∧ ∀ y ∈ d, minQ d ≤ y
  | [], h => absurd rfl h
  | x :: rest, _ => by
    obtain ⟨hmem, hle, hall⟩ := foldl_min_spec rest x
    rw [minQ]
    constructor
    · rcases hmem with hm | hm
      · rw [hm]
        exact List.mem_cons_self x rest
      · exact List.mem_cons_of_mem x hm
    · intro y hy
      rcases List.mem_cons.mp hy with rfl | hy'
      · exact hle
      · exact hall y hy'

theorem maxQ_spec : ∀ (d : List ℚ), d ≠ [] → maxQ d ∈ d ∧ ∀ y ∈ d, y ≤ maxQ d
  | [], h => absurd rfl h
  | x :: rest, _ => by
    obtain ⟨hmem, hle, hall⟩ := foldl_max_spec rest x
    rw [maxQ]
    constructor
    · rcases hmem with hm | hm
      · rw [hm]
        exact List.mem_cons_self x rest
      · exact List.mem_cons_of_mem x hm
    · intro y hy
      rcases List.mem_cons.mp hy with rfl | hy'
      · exact hle
      · exact hall y hy'

theorem minQ_perm (d1 d2 : List ℚ) (h : d1.Perm d2) : minQ d1 = minQ d2 := by
  by_cases h1 : d1 = []
  · subst h1
    rw [h.symm.eq_nil]
  · have h2 : d2 ≠ [] := by
      intro hh
      exact h1 ((h.trans (by rw [hh])).eq_nil)
    obtain ⟨m1mem, m1le⟩ := minQ_spec d1 h1
    obtain ⟨m2mem, m2le⟩ := minQ_spec d2 h2
    exact le_antisymm (m1le _ (h.mem_iff.mpr m2mem)) (m2le _ (h.mem_iff.mp m1mem))

theorem maxQ_perm (d1 d2 : List ℚ) (h : d1.Perm d2) : maxQ d1 = maxQ d2 := by
  by_cases h1 : d1 = []
  · subst h1
    rw [h.symm.eq_nil]
  · have h2 : d2 ≠ [] := by
      intro hh
      exact h1 ((h.trans (by rw [hh])).eq_nil)
    obtain ⟨m1mem, m1le⟩ := maxQ_spec d1 h1
    obtain ⟨m2mem, m2le⟩ := maxQ_spec d2 h2
    exact le_antisymm (m2le _ (h.mem_iff.mp m1mem)) (m1le _ (h.mem_iff.mpr m2mem))

theorem meanQ_perm (d1 d2 : List ℚ) (h : d1.Perm d2) : meanQ d1 = meanQ d2 := by
  rw [meanQ, meanQ, h.sum_eq, h.length_eq]

theorem sortQ_perm_eq (d1 d2 : List ℚ) (h : d1.Perm d2) : sortQ d1 = sortQ d2 :=
  List.eq_of_perm_of_sorted
    (((List.perm_insertionSort _ d1).trans h).trans (List.perm_insertionSort _ d2).symm)
    (List.sorted_insertionSort _ d1) (List.sorted_insertionSort _ d2)

theorem medianQ_perm (d1 d2 : List ℚ) (h : d1.Perm d2) : medianQ d1 = medianQ d2 := by
  rw [medianQ, medianQ, sortQ_perm_eq d1 d2 h]

theorem sampleVarQ_perm (d1 d2 : List ℚ) (h : d1.Perm d2) : sampleVarQ d1 = sampleVarQ d2 := by
  rw [sampleVarQ, sampleVarQ, meanQ_perm d1 d2 h, h.length_eq,
    (h.map (fun x => (x - meanQ d2) ^ 2)).sum_eq]

/-- The finalized per-operation summaries of two permuted record lists agree
at every key: every derived statistic is a symmetric function of the group's
records. -/
theorem lookup_buildSummary_perm (n : String) (l1 l2 : List RawRecord)
    (h : l1.Perm l2) (k : String) :
    lookupKey k (buildSummary n l1).operations = lookupKey k (buildSummary n l2).operations := by
  rw [buildSummary_operations, buildSummary_operations, lookupKey_map_snd, lookupKey_map_snd,
    lookupKey_groupOps, lookupKey_groupOps, statsFold_none_eq, statsFold_none_eq]
  have hg : (l1.filter (fun r => decide (r.getOperation = k))).Perm
      (l2.filter (fun r => decide (r.getOperation = k))) := h.filter _
  by_cases h1 : l1.filter (fun r => decide (r.getOperation = k)) = []
  · have h2 : l2.filter (fun r => decide (r.getOperation = k)) = [] := by
      rw [← List.length_eq_zero, ← hg.length_eq, List.length_eq_zero]
      exact h1
    rw [if_pos h1, if_pos h2]
  · have h2 : l2.filter (fun r => decide (r.getOperation = k)) ≠ [] := by
      intro hh
      exact h1 (by rw [← List.length_eq_zero, hg.length_eq, List.length_eq_zero]; exact hh)
    rw [if_neg h1, if_neg h2]
    set g1 := l1.filter (fun r => decide (r.getOperation = k)) with hg1
    set g2 := l2.filter (fun r => decide (r.getOperation = k)) with hg2
    have hd : (g1.map RawRecord.getDuration).Perm (g2.map RawRecord.getDuration) :=
      hg.map _
    have hdur1 : (g1.foldl opStatsAdd emptyOpStats).durations = g1.map RawRecord.getDuration := by
      rw [foldl_opStatsAdd_durations]
      simp [emptyOpStats]
    have hdur2 : (g2.foldl opStatsAdd emptyOpStats).durations = g2.map RawRecord.getDuration := by
      rw [foldl_opStatsAdd_durations]
      simp [emptyOpStats]
    have hcnt : (g1.foldl opStatsAdd emptyOpStats).count = (g2.foldl opStatsAdd emptyOpStats).count := by
      rw [foldl_opStatsAdd_count, foldl_opStatsAdd_count, hg.length_eq]
    have hsucc : (g1.foldl opStatsAdd emptyOpStats).success_count =
        (g2.foldl opStatsAdd emptyOpStats).success_count := by
      rw [foldl_opStatsAdd_success, foldl_opStatsAdd_success, hg.countP_eq]
    have htot : (g1.foldl opStatsAdd emptyOpStats).total_duration =
        (g2.foldl opStatsAdd emptyOpStats).total_duration := by
      rw [foldl_opStatsAdd_total, foldl_opStatsAdd_total, hd.sum_eq]
    simp only [Option.map_some']
    congr 1
    simp only [finalizeOp, OpSummary.mk.injEq, hdur1, hdur2]
    have hdeq : ((g1.map RawRecord.getDuration) = []) = ((g2.map RawRecord.getDuration) = []) := by
      by_cases hc : g1.map RawRecord.getDuration = []
      · simp [hc, ← List.length_eq_zero, ← hd.length_eq,
          List.length_eq_zero.mpr hc]
      · have hc2 : g2.map RawRecord.getDuration ≠ [] := by
          intro hh
          exact hc (by rw [← List.length_eq_zero, hd.length_eq, List.length_eq_zero]; exact hh)
        simp [hc, hc2]
    refine ⟨hcnt, hsucc, htot, ?_, ?_, ?_, ?_, ?_, ?_⟩
    · simp only [hdeq, meanQ_perm _ _ hd]
    · simp only [hdeq, medianQ_perm _ _ hd]
    · simp only [hdeq, minQ_perm _ _ hd]
    · simp only [hdeq, maxQ_perm _ _ hd]
    · simp only [hdeq, hd.length_eq, sampleVarQ_perm _ _ hd]
    · simp only [hcnt, hsucc]

/-! ## C7: what permutation invariance the comparison does and does not have -/

theorem keys_map_snd {β γ : Type} (g : β → γ) :
    ∀ (l : List (String × β)),
      (l.map (fun p => (p.1, g p.2))).map Prod.fst = l.map Prod.fst
  | [] => rfl
  | p :: rest => by simp [keys_map_snd g rest]

theorem improvementAt_congr (b o1 o2 : List (String × OpSummary)) (k : String)
    (h : lookupKey k o1 = lookupKey k o2) :
    improvementAt b o1 k = improvementAt b o2 k := by
  simp only [improvementAt, h]

theorem regressionAt_congr (b o1 o2 : List (String × OpSummary)) (k : String)
    (h : lookupKey k o1 = lookupKey k o2) :
    regressionAt b o1 k = regressionAt b o2 k := by
  simp only [regressionAt, h]

theorem missingOpAt_congr (b o1 o2 : List (String × OpSummary)) (k : String)
    (h : lookupKey k o1 = lookupKey k o2) :
    missingOpAt b o1 k = missingOpAt b o2 k := by
  simp only [missingOpAt, h]

theorem compareStep_baseline_file (b c : List (String × OpSummary))
    (acc : ComparisonResult) (k : String) :
    (compareStep b c acc k).baseline_file = acc.baseline_file := by
  cases hb : lookupKey k b with
  | none => simp [compareStep, hb]
  | some bop =>
    cases hc : lookupKey k c with
    | none => simp [compareStep, hb, hc]
    | some cop =>
      simp only [compareStep, hb, hc]
      split_ifs <;> simp

theorem compareStep_current_file (b c : List (String × OpSummary))
    (acc : ComparisonResult) (k : String) :
    (compareStep b c acc k).current_file = acc.current_file := by
  cases hb : lookupKey k b with
  | none => simp [compareStep, hb]
  | some bop =>
    cases hc : lookupKey k c with
    | none => simp [compareStep, hb, hc]
    | some cop =>
      simp only [compareStep, hb, hc]
      split_ifs <;> simp

theorem loop_baseline_file (b c : List (String × OpSummary)) :
    ∀ (keys : List String) (acc : ComparisonResult),
      ((keys.foldl (compareStep b c) acc).baseline_file) = acc.baseline_file
  | [], acc => rfl
  | k :: ks, acc => by
    rw [List.foldl_cons, loop_baseline_file b c ks, compareStep_baseline_file]

theorem loop_current_file (b c : List (String × OpSummary)) :
    ∀ (keys : List String) (acc : ComparisonResult),
      ((keys.foldl (compareStep b c) acc).current_file) = acc.current_file
  | [], acc => rfl
  | k :: ks, acc => by
    rw [List.foldl_cons, loop_current_file b c ks, compareStep_current_file]

/-- The key enumerations produced for the summaries of two permuted record
lists are permutations of each other: both are duplicate-free and enumerate
the same key set. -/
theorem comparison_keys_perm (bops : List (String × OpSummary)) (n : String)
    (l1 l2 : List RawRecord) (h : l1.Perm l2) :
    (dedupFirst (bops.map Prod.fst ++ (buildSummary n l1).operations.map Prod.fst)).Perm
      (dedupFirst (bops.map Prod.fst ++ (buildSummary n l2).operations.map Prod.fst)) := by
  apply (List.perm_ext_iff_of_nodup (dedupFirst_nodup _) (dedupFirst_nodup _)).mpr
  intro a
  rw [mem_dedupFirst, mem_dedupFirst, List.mem_append, List.mem_append,
    buildSummary_operations, buildSummary_operations, keys_map_snd, keys_map_snd,
    mem_keys_groupOps, mem_keys_groupOps]
  constructor
  · rintro (hb | ⟨r, hr, hrk⟩)
    · exact Or.inl hb
    · exact Or.inr ⟨r, h.mem_iff.mp hr, hrk⟩
  · rintro (hb | ⟨r, hr, hrk⟩)
    · exact Or.inl hb
    · exact Or.inr ⟨r, h.mem_iff.mpr hr, hrk⟩

/-- Two comparison results with the same provenance fields whose four
classified lists agree up to order. -/
def equivUpToOrder (r1 r2 : ComparisonResult) : Prop :=
  r1.baseline_file = r2.baseline_file ∧ r1.current_file = r2.current_file ∧
  r1.improvements.Perm r2.improvements ∧ r1.regressions.Perm r2.regressions ∧
  r1.new_operations.Perm r2.new_operations ∧ r1.missing_operations.Perm r2.missing_operations

/-- The comparison loop applied to the summaries of two permuted record
lists produces the same classified deltas up to the order of the lists,
whatever the baseline operations and the initial comparison record. -/
theorem compare_ops_loop_perm (bops : List (String × OpSummary)) (n : String)
    (init : ComparisonResult) (l1 l2 : List RawRecord) (h : l1.Perm l2) :
    equivUpToOrder
      (compare_ops_loop bops (buildSummary n l1).operations init)
      (compare_ops_loop bops (buildSummary n l2).operations init) := by
  have hkeys := comparison_keys_perm bops n l1 l2 h
  have hlk := lookup_buildSummary_perm n l1 l2 h
  rw [compare_ops_loop, compare_ops_loop]
  refine ⟨?_, ?_, ?_, ?_, ?_, ?_⟩
  · rw [loop_baseline_file, loop_baseline_file]
  · rw [loop_current_file, loop_current_file]
  · rw [loop_improvements, loop_improvements,
      List.filterMap_congr (fun k _ => improvementAt_congr bops _ _ k (hlk k))]
    exact List.Perm.append_left _ (hkeys.filterMap _)
  · rw [loop_regressions, loop_regressions,
      List.filterMap_congr (fun k _ => regressionAt_congr bops _ _ k (hlk k))]
    exact List.Perm.append_left _ (hkeys.filterMap _)
  · rw [loop_new, loop_new]
    exact List.Perm.append_left _ (hkeys.filterMap _)
  · rw [loop_missing, loop_missing,
      List.filterMap_congr (fun k _ => missingOpAt_congr bops _ _ k (hlk k))]
    exact List.Perm.append_left _ (hkeys.filterMap _)

/-- `generate_summary` over a single-file directory holding the named file. -/
theorem generate_summary_single (p : String) (t : ℕ) (l : List RawRecord) :
    generate_summary [{ name := p, mtime := t, records := some l }] (some p) =
      if l = [] then Except.error ("No data in " ++ p) else Except.ok (buildSummary p l) := by
  simp [generate_summary, load_result, findFile]

/-- A successful 1 ms record of operation "a". -/
def cexR7a : RawRecord :=
  { operation := some "a", tool := some "vx", duration_ms := some 1,
    success := some true, timestamp := none }

/-- A successful 1 ms record of operation "b". -/
def cexR7b : RawRecord :=
  { operation := some "b", tool := some "vx", duration_ms := some 1,
    success := some true, timestamp := none }

/-- C7 counterexample.  Swapping two records of different operations permutes
the insertion order of the current summary's keys, and with it the order in
which the set union's iteration visits them: against an empty baseline the
two runs emit `new_operations` as ["a", "b"] and as ["b", "a"] — the
ComparisonResult is not identical including list order, only identical up to
order. -/
theorem comparison_order_cex :
    ([cexR7a, cexR7b] : List RawRecord).Perm [cexR7b, cexR7a] ∧
    (compare_ops_loop [] (buildSummary "f" [cexR7a, cexR7b]).operations
        (initComparison "x" "y")).new_operations = ["a", "b"] ∧
    (compare_ops_loop [] (buildSummary "f" [cexR7b, cexR7a]).operations
        (initComparison "x" "y")).new_operations = ["b", "a"] ∧
    compare_ops_loop [] (buildSummary "f" [cexR7a, cexR7b]).operations (initComparison "x" "y") ≠
      compare_ops_loop [] (buildSummary "f" [cexR7b, cexR7a]).operations (initComparison "x" "y") := by
  have h1 : (compare_ops_loop [] (buildSummary "f" [cexR7a, cexR7b]).operations
      (initComparison "x" "y")).new_operations = ["a", "b"] := rfl
  have h2 : (compare_ops_loop [] (buildSummary "f" [cexR7b, cexR7a]).operations
      (initComparison "x" "y")).new_operations = ["b", "a"] := rfl
  refine ⟨List.Perm.swap cexR7b cexR7a [], h1, h2, ?_⟩
  intro he
  have hn := congrArg ComparisonResult.new_operations he
  rw [h1, h2] at hn
  exact absurd hn (by decide)

/-- C7 (amended).  Permuting the record sequence before aggregation yields a
ComparisonResult with the same classified deltas up to the order of the four
lists (and the same provenance fields) — both through the comparison loop and
through the full `compare_with_baseline` pipeline; the order of entries
within the lists follows the unordered set iteration and is not preserved. -/
theorem comparison_perm_invariant (b : BaselineData) (bf cf p : String) (t : ℕ)
    (l1 l2 : List RawRecord) (hperm : l1.Perm l2) :
    equivUpToOrder
      (compare_ops_loop b.operations (buildSummary p l1).operations (initComparison bf cf))
      (compare_ops_loop b.operations (buildSummary p l2).operations (initComparison bf cf)) ∧
    ((l1 = [] ∧
      compare_with_baseline (some b) [{ name := p, mtime := t, records := some l1 }] (some p) =
        compare_with_baseline (some b) [{ name := p, mtime := t, records := some l2 }] (some p)) ∨
     (∃ r1 r2,
       compare_with_baseline (some b) [{ name := p, mtime := t, records := some l1 }] (some p) =
         Except.ok r1 ∧
       compare_with_baseline (some b) [{ name := p, mtime := t, records := some l2 }] (some p) =
         Except.ok r2 ∧
       equivUpToOrder r1 r2)) := by
  constructor
  · exact compare_ops_loop_perm b.operations p (initComparison bf cf) l1 l2 hperm
  · by_cases h1 : l1 = []
    · have h2 : l2 = [] := by
        rw [← List.length_eq_zero, ← hperm.length_eq, List.length_eq_zero]
        exact h1
      subst h1
      subst h2
      exact Or.inl ⟨rfl, rfl⟩
    · have h2 : l2 ≠ [] := by
        intro hh
        exact h1 (by rw [← List.length_eq_zero, hperm.length_eq, List.length_eq_zero]; exact hh)
      have e1 : compare_with_baseline (some b) [{ name := p, mtime := t, records := some l1 }]
          (some p) = Except.ok (compare_ops_loop b.operations (buildSummary p l1).operations
            (initComparison b.source_file p)) := by
        rw [compare_with_baseline, generate_summary_single, if_neg h1]
        rfl
      have e2 : compare_with_baseline (some b) [{ name := p, mtime := t, records := some l2 }]
          (some p) = Except.ok (compare_ops_loop b.operations (buildSummary p l2).operations
            (initComparison b.source_file p)) := by
        rw [compare_with_baseline, generate_summary_single, if_neg h2]
        rfl
      exact Or.inr ⟨_, _, e1, e2,
        compare_ops_loop_perm b.operations p (initComparison b.source_file p) l1 l2 hperm⟩

/-- A successful 30 ms "update" record, for the C7 witness. -/
def wRec7 : RawRecord :=
  { operation := some "update", tool := some "vx", duration_ms := some 30,
    success := some true, timestamp := none }

/-- The C7 witness baseline: one operation at average 10 ms. -/
def wBase7 : BaselineData :=
  { created_at := "t0", source_file := "old.json",
    operations := [("update", wOS 10)], tools := [] }

/-- C7 witness: swapping two concrete records leaves the comparison loop's
result and the full pipeline's result unchanged up to list order. -/
theorem comparison_perm_invariant_witness :
    equivUpToOrder
      (compare_ops_loop wBase7.operations (buildSummary "f" [wRec7, cexRec8]).operations
        (initComparison "b" "c"))
      (compare_ops_loop wBase7.operations (buildSummary "f" [cexRec8, wRec7]).operations
        (initComparison "b" "c")) ∧
    ((([wRec7, cexRec8] : List RawRecord) = [] ∧
      compare_with_baseline (some wBase7)
          [{ name := "f", mtime := 1, records := some [wRec7, cexRec8] }] (some "f") =
        compare_with_baseline (some wBase7)
          [{ name := "f", mtime := 1, records := some [cexRec8, wRec7] }] (some "f")) ∨
     (∃ r1 r2,
        compare_with_baseline (some wBase7)
            [{ name := "f", mtime := 1, records := some [wRec7, cexRec8] }] (some "f") =
          Except.ok r1 ∧
        compare_with_baseline (some wBase7)
            [{ name := "f", mtime := 1, records := some [cexRec8, wRec7] }] (some "f") =
          Except.ok r2 ∧
        equivUpToOrder r1 r2)) :=
  comparison_perm_invariant wBase7 "b" "c" "f" 1 [wRec7, cexRec8] [cexRec8, wRec7]
    (List.Perm.swap cexRec8 wRec7 [])

end Vx
